/-
Verification of async-geotiff core semantics.

This file gives a shallow embedding, in Lean 4, of the core data model and
algorithms of the async-geotiff library (windows, IFD classification,
windowed tiled reads, colormaps, ellipsoid resolution, affine transforms),
translated from the Python sources:

  src/async_geotiff/_windows.py
  src/async_geotiff/_geotiff.py
  src/async_geotiff/_read.py
  src/async_geotiff/_fetch.py
  src/async_geotiff/_overview.py
  src/async_geotiff/_array.py
  src/async_geotiff/_crs.py
  src/async_geotiff/_transform.py
  src/async_geotiff/colormap.py

Python integers are modelled as ℤ (or ℕ where the source guarantees
non-negative TIFF fields), Python floats as ℚ (or ℝ where square roots are
involved), numpy arrays as a shape together with a total valuation
function, and Python exceptions as the error side of `Except`.
Python's floor division `//` is `Int.fdiv` and `%` is `Int.fmod`.
-/
import Mathlib

namespace AsyncGeotiff

/-! ### Python exception model

Python exception classes raised by the embedded code.  The library's own
`exceptions.py` module is not part of the sources under verification, so
the relationship between `WindowError` and the builtin exceptions is taken
from the specification (see `PyErr.isWindowErrorKind`). -/

/-- The Python exception classes raised by the embedded code. -/
inductive PyErr where
  /-- Builtin `IndexError`. -/
  | indexError : PyErr
  /-- The library's `exceptions.WindowError`. -/
  | windowError : PyErr
  /-- Builtin `ValueError`. -/
  | valueError : PyErr
  /-- Builtin `TypeError` (wrong call arity / missing required argument). -/
  | typeError : PyErr
  /-- Builtin `AssertionError` (a failing `assert` statement). -/
  | assertionError : PyErr
deriving DecidableEq, Repr

/-- Modelled from the spec: the module `exceptions.py` defining the library's
error classes is absent from the sources, and §7 of the specification
classifies error kinds "by cause, not by name", stating that `IndexError` is
"analogous to WindowError at the edges of public APIs that historically used
index semantics — implementations may fold these into WindowError".  So both
the `WindowError` class and the window-cause `IndexError` raises belong to
the window-error kind. -/
def PyErr.isWindowErrorKind : PyErr → Bool
  | .windowError => true
  | .indexError => true
  | _ => false

/-! ### Windows (`_windows.py`) -/

/-- A rectangular subset of a raster, from `_windows.py` (class `Window`).
The four fields are Python ints. -/
structure Window where
  col_off : ℤ
  row_off : ℤ
  width : ℤ
  height : ℤ
deriving DecidableEq, Repr

/-- The invariant established by `Window.__post_init__`: offsets are
non-negative and dimensions are positive.  Every `Window` object that exists
at Python runtime satisfies this. -/
def Window.Valid (w : Window) : Prop :=
  0 ≤ w.col_off ∧ 0 ≤ w.row_off ∧ 0 < w.width ∧ 0 < w.height

instance (w : Window) : Decidable w.Valid := by
  unfold Window.Valid; infer_instance

/-- The validated constructor: `Window(...)` runs `__post_init__`, which
raises `IndexError` for a negative offset and `WindowError` for a
non-positive width or height (`_windows.py` lines 43-55). -/
def Window.make (col_off row_off width height : ℤ) : Except PyErr Window :=
  if col_off < 0 ∨ row_off < 0 then .error .indexError
  else if width ≤ 0 then .error .windowError
  else if height ≤ 0 then .error .windowError
  else .ok ⟨col_off, row_off, width, height⟩

/-- Property `_col_stop` from `_windows.py`. -/
def Window.colStop (w : Window) : ℤ := w.col_off + w.width

/-- Property `_row_stop` from `_windows.py`. -/
def Window.rowStop (w : Window) : ℤ := w.row_off + w.height

/-- Method `Window.intersection` from `_windows.py` lines 125-149: computes
the overlapping region, raising `WindowError` when the windows do not
intersect; the final `Window(...)` call re-validates through
`__post_init__`. -/
def Window.intersection (a b : Window) : Except PyErr Window :=
  let col_off := max a.col_off b.col_off
  let row_off := max a.row_off b.row_off
  let col_stop := min a.colStop b.colStop
  let row_stop := min a.rowStop b.rowStop
  let width := col_stop - col_off
  let height := row_stop - row_off
  if width ≤ 0 ∨ height ≤ 0 then .error .windowError
  else Window.make col_off row_off width height

/-- Method `Window._intersects` from `_windows.py` lines 151-166. -/
def Window.intersects (a b : Window) : Bool :=
  let col_off := max a.col_off b.col_off
  let row_off := max a.row_off b.row_off
  let col_stop := min a.colStop b.colStop
  let row_stop := min a.rowStop b.rowStop
  (col_stop - col_off) > 0 && (row_stop - row_off) > 0

/-! ### TIFF data model (fields consumed from `async_tiff` ImageFileDirectory) -/

/-- Photometric interpretation codes (the `async_tiff` enum constructors used
by this library). -/
inductive Photometric where
  | whiteIsZero | blackIsZero | rgb | rgbPalette | transparencyMask
  | cmyk | ycbcr | cielab
deriving DecidableEq, Repr

/-- The geo key fields consumed by `_crs._build_ellipsoid_params`. -/
structure GeoKeyDir where
  geog_ellipsoid : Option ℕ
  geog_semi_major_axis : Option ℚ
  geog_inv_flattening : Option ℚ
  geog_semi_minor_axis : Option ℚ
deriving DecidableEq, Repr

/-- The ImageFileDirectory fields consumed by `GeoTIFF.__init__` and
`is_mask_ifd` (`_geotiff.py`). -/
structure IFD where
  image_width : ℕ
  image_height : ℕ
  new_subfile_type : Option ℕ
  photometric_interpretation : Photometric
  geo_key_directory : Option GeoKeyDir
deriving DecidableEq, Repr

/-- Dimension key `(image_width, image_height)` used to index the data/mask
dictionaries in `GeoTIFF.__init__`. -/
def IFD.dims (i : IFD) : ℕ × ℕ := (i.image_width, i.image_height)

/-- The `is_mask_ifd` helper from `_geotiff.py` lines 434-441:
`new_subfile_type` present, bit 2 set, and TransparencyMask photometric. -/
def is_mask_ifd (ifd : IFD) : Bool :=
  match ifd.new_subfile_type with
  | none => false
  | some nst =>
    decide (nst &&& 4 ≠ 0) &&
      decide (ifd.photometric_interpretation = Photometric.transparencyMask)

/-! ### Python dict on an association list

`GeoTIFF.__init__` keys its `data_ifds` / `mask_ifds` dicts by dimension
pairs.  A Python dict preserves insertion order and updating an existing key
keeps its position; we model it as an association list. -/

/-- Python `d[k] = v` on an insertion-ordered dict. -/
def dictInsert {K V : Type} [DecidableEq K] (m : List (K × V)) (k : K) (v : V) :
    List (K × V) :=
  if k ∈ m.map Prod.fst then m.map (fun p => if p.1 = k then (k, v) else p)
  else m ++ [(k, v)]

/-- Python `d.get(k)` on an insertion-ordered dict. -/
def dictGet? {K V : Type} [DecidableEq K] (m : List (K × V)) (k : K) : Option V :=
  (m.find? (fun p => decide (p.1 = k))).map Prod.snd

/-- Python `d.keys()` (insertion order). -/
def dictKeys {K V : Type} (m : List (K × V)) : List K := m.map Prod.fst

/-! ### Directory classification (`GeoTIFF.__init__`, `_geotiff.py` 71-123) -/

/-- The loop over `tiff.ifds[1:]` separating data IFDs and mask IFDs into two
dictionaries keyed by `(image_width, image_height)` (`_geotiff.py` 88-98). -/
def classifyLoop (rest : List IFD) :
    List ((ℕ × ℕ) × IFD) × List ((ℕ × ℕ) × IFD) :=
  rest.foldl
    (fun acc ifd =>
      if is_mask_ifd ifd then (acc.1, dictInsert acc.2 ifd.dims ifd)
      else (dictInsert acc.1 ifd.dims ifd, acc.2))
    ([], [])

/-- The comparison underlying
`sorted(data_ifds.keys(), key=lambda d: d[0] * d[1], reverse=True)`:
dimension pairs ordered by descending area. -/
def areaGE (p q : ℕ × ℕ) : Prop := q.1 * q.2 ≤ p.1 * p.2

instance : DecidableRel areaGE := fun p q => Nat.decLe (q.1 * q.2) (p.1 * p.2)

instance : IsTotal (ℕ × ℕ) areaGE := ⟨fun p q => le_total (q.1 * q.2) (p.1 * p.2)⟩

instance : IsTrans (ℕ × ℕ) areaGE := ⟨fun _ _ _ h1 h2 => le_trans h2 h1⟩

/-- Python's `sorted(..., reverse=True)` is a stable sort; `insertionSort`
over the total preorder `areaGE` computes the same list. -/
def sortDimsDesc (ks : List (ℕ × ℕ)) : List (ℕ × ℕ) :=
  List.insertionSort areaGE ks

/-- The outcome of `GeoTIFF.__init__`: the classified directory graph. -/
structure GeoTIFFModel where
  primary_ifd : IFD
  gkd : GeoKeyDir
  mask_ifd : Option IFD
  overviews : List (IFD × Option IFD)
deriving DecidableEq, Repr

/-- Translation of `GeoTIFF.__init__` (`_geotiff.py` lines 71-123).

Note the source's order of operations: `tiff.ifds[0]` is evaluated first
(raising `IndexError` on an empty directory list), the GeoKeyDirectory check
raises `ValueError`, and only then comes the source's own
`len(tiff.ifds) == 0` check — which is therefore unreachable.  Each overview
is created through `Overview._create`, which stores exactly the data
directory and optional mask directory; we keep those pairs. -/
def GeoTIFF.init (ifds : List IFD) : Except PyErr GeoTIFFModel := do
  let first_ifd ← match ifds with
    | [] => throw PyErr.indexError
    | i :: _ => pure i
  let gkd ← match first_ifd.geo_key_directory with
    | none => throw PyErr.valueError
    | some g => pure g
  if ifds.length = 0 then throw PyErr.valueError
  let maps := classifyLoop ifds.tail
  let primary_mask := dictGet? maps.2 first_ifd.dims
  let sorted_dims := sortDimsDesc (dictKeys maps.1)
  let overviews := sorted_dims.filterMap
    (fun dims => (dictGet? maps.1 dims).map (fun d => (d, dictGet? maps.2 dims)))
  pure { primary_ifd := first_ifd, gkd := gkd, mask_ifd := primary_mask,
         overviews := overviews }

/-! ### Ellipsoid resolution (`_crs._build_ellipsoid_params`) -/

/-- The `name` entry of the ellipsoid PROJJSON dict (an f-string over the
EPSG code, or the literal "User-defined"). -/
inductive EllipsoidName where
  | epsgCode (n : ℕ) : EllipsoidName
  | userDefined : EllipsoidName
deriving DecidableEq, Repr

/-- The ellipsoid PROJJSON dict built by `_build_ellipsoid_params`; a `none`
field models an absent dict key. -/
structure Ellipsoid where
  name : EllipsoidName
  semi_major_axis : Option ℚ
  inverse_flattening : Option ℚ
  semi_minor_axis : Option ℚ
deriving DecidableEq, Repr

/-- The fully user-defined fall-through of `_build_ellipsoid_params`
(`_crs.py` lines 164-183): `semi_major_axis` is required, then
`inverse_flattening` is preferred over `semi_minor_axis`; if neither is
present a `ValueError` is raised. -/
def user_defined_ellipsoid (gkd : GeoKeyDir) : Except PyErr Ellipsoid :=
  match gkd.geog_semi_major_axis with
  | none => .error .valueError
  | some semi_major =>
    match gkd.geog_inv_flattening with
    | some inv =>
      .ok ⟨.userDefined, some semi_major, some inv, none⟩
    | none =>
      match gkd.geog_semi_minor_axis with
      | some sm => .ok ⟨.userDefined, some semi_major, none, some sm⟩
      | none => .error .valueError

/-- Translation of `_build_ellipsoid_params` (`_crs.py` lines 149-183).  The
EPSG branch copies whichever optional parameters are present (with
`inverse_flattening` shadowing `semi_minor_axis`); otherwise the user-defined
fall-through runs. -/
def build_ellipsoid_params (gkd : GeoKeyDir) : Except PyErr Ellipsoid :=
  match gkd.geog_ellipsoid with
  | some code =>
    if code = 32767 then user_defined_ellipsoid gkd
    else
      .ok ⟨.epsgCode code, gkd.geog_semi_major_axis, gkd.geog_inv_flattening,
        if gkd.geog_inv_flattening = none then gkd.geog_semi_minor_axis
        else none⟩
  | none => user_defined_ellipsoid gkd

/-- The step function of the classification loop in `GeoTIFF.__init__`. -/
def classifyStep (acc : List ((ℕ × ℕ) × IFD) × List ((ℕ × ℕ) × IFD))
    (ifd : IFD) : List ((ℕ × ℕ) × IFD) × List ((ℕ × ℕ) × IFD) :=
  if is_mask_ifd ifd then (acc.1, dictInsert acc.2 ifd.dims ifd)
  else (dictInsert acc.1 ifd.dims ifd, acc.2)

/-! ### Colormap (`colormap.py`) -/

/-- The dtype argument of `Colormap.as_array`; its Python annotation is
`type[np.uint8 | np.uint16]` (any other value raises `ValueError`, a branch
outside this two-constructor domain). -/
inductive CmapDtype where
  | uint8 | uint16
deriving DecidableEq, Repr

/-- The `Colormap` class (`colormap.py`): `_cmap` holds N uint16 `(r, g, b)`
rows; `_nodata` is the gdal nodata value, if set. -/
structure Colormap where
  cmap : List (ℕ × ℕ × ℕ)
  nodata : Option ℚ
deriving DecidableEq, Repr

/-- Method `Colormap.as_array` (`colormap.py` lines 31-59): for uint8, shift
each component right by 8 bits and cast to uint8 (`astype` truncates mod
256); for uint16, return the stored rows unchanged. -/
def Colormap.as_array (c : Colormap) (dtype : CmapDtype) : List (ℕ × ℕ × ℕ) :=
  match dtype with
  | .uint8 => c.cmap.map
      (fun e => ((e.1 >>> 8) % 256, (e.2.1 >>> 8) % 256, (e.2.2 >>> 8) % 256))
  | .uint16 => c.cmap

/-- Method `Colormap.as_rasterio` (`colormap.py` lines 79-104): the uint8
colormap with an alpha channel appended, keyed by the row index; alpha is
255 unless the nodata value is set and equals the index. -/
def Colormap.as_rasterio (c : Colormap) : List (ℕ × ℕ × ℕ × ℕ) :=
  (c.as_array .uint8).enum.map
    (fun p =>
      let alpha : ℕ :=
        match c.nodata with
        | none => 255
        | some nd => if (p.1 : ℚ) ≠ nd then 255 else 0
      (p.2.1, p.2.2.1, p.2.2.2, alpha))

/-! ### Affine transforms (the `affine` package as used by the sources) -/

/-- An affine transform `(a b c; d e f; 0 0 1)` mapping `(x, y)` to
`(a x + b y + c, d x + e y + f)`; scalars are ℚ for the exact fragment and
ℝ where square roots appear. -/
structure Affine (R : Type) where
  a : R
  b : R
  c : R
  d : R
  e : R
  f : R
deriving DecidableEq, Repr

/-- Matrix composition `g * h` of the `affine` package. -/
def Affine.mul {R : Type} [CommRing R] (g h : Affine R) : Affine R :=
  ⟨g.a * h.a + g.b * h.d,
   g.a * h.b + g.b * h.e,
   g.a * h.c + g.b * h.f + g.c,
   g.d * h.a + g.e * h.d,
   g.d * h.b + g.e * h.e,
   g.d * h.c + g.e * h.f + g.f⟩

/-- `Affine.translation(tx, ty)`. -/
def Affine.translation {R : Type} [CommRing R] (tx ty : R) : Affine R :=
  ⟨1, 0, tx, 0, 1, ty⟩

/-- `Affine.scale(sx, sy)`. -/
def Affine.scale {R : Type} [CommRing R] (sx sy : R) : Affine R :=
  ⟨sx, 0, 0, 0, sy, 0⟩

/-- Property `res` from `_transform.py` lines 52-62 (`TransformMixin`,
inherited by `Array`): the magnitudes of the two pixel axes computed from
the transform components. -/
noncomputable def TransformMixin.res (t : Affine ℝ) : ℝ × ℝ :=
  (Real.sqrt (t.a ^ 2 + t.d ^ 2), Real.sqrt (t.b ^ 2 + t.e ^ 2))

/-- Property `res` from `_geotiff.py` lines 346-350: class `GeoTIFF` defines
its own `res`, which takes precedence over the `TransformMixin` method in
the method resolution order and returns `(transform.a, -transform.e)`. -/
def GeoTIFF.res {R : Type} [Neg R] (t : Affine R) : R × R := (t.a, -t.e)

/-! ### numpy buffers and the async_geotiff Array (`_array.py`) -/

/-- A 3-dimensional numpy buffer: a shape together with a total valuation.
Index order follows the comments at each use site. -/
structure NDArray3 (V : Type) where
  dim0 : ℤ
  dim1 : ℤ
  dim2 : ℤ
  val : ℤ → ℤ → ℤ → V

/-- A 2-dimensional boolean numpy buffer (mask plane, true = valid). -/
structure NDArray2 where
  dim0 : ℤ
  dim1 : ℤ
  val : ℤ → ℤ → Bool

/-- Model of `np.empty`: an uninitialized allocation; the memory content is
an arbitrary fill parameter. -/
def NDArray3.emptyBuf {V : Type} (d0 d1 d2 : ℤ) (fill : V) : NDArray3 V :=
  ⟨d0, d1, d2, fun _ _ _ => fill⟩

/-- Model of `np.ones(..., dtype=bool)`. -/
def NDArray2.ones (d0 d1 : ℤ) : NDArray2 := ⟨d0, d1, fun _ _ => true⟩

/-- The `PlanarConfiguration` enum values used by `Array._create`. -/
inductive PlanarConfiguration where
  | chunky | planar
deriving DecidableEq, Repr

/-- The async_geotiff `Array` dataclass (`_array.py` lines 20-49), called
`RasterArray` here because `Array` is taken by Lean's prelude.  `data` is
`(bands, height, width)`; `mask` is `(height, width)` with true = valid;
`count`, `width`, `height` are required fields, `nodata` defaults to none;
`crs` is an opaque token. -/
structure RasterArray (V : Type) where
  data : NDArray3 V
  mask : Option NDArray2
  width : ℤ
  height : ℤ
  count : ℤ
  transform : Affine ℚ
  crs : ℕ
  nodata : Option ℚ

/-- Classmethod `Array._create` (`_array.py` lines 51-98): squeeze the
decoded mask's trailing singleton channel (assert it is one), reorder a
pixel-interleaved `(H, W, C)` buffer to `(C, H, W)` via `np.moveaxis`, and
populate the dataclass, reading `count, height, width` off the reordered
shape.  `nodata` is a required keyword-only parameter with no default. -/
def RasterArray.create {V : Type} (data : NDArray3 V)
    (mask : Option (NDArray3 Bool)) (planar_configuration : PlanarConfiguration)
    (transform : Affine ℚ) (crs : ℕ) (nodata : Option ℚ) :
    Except PyErr (RasterArray V) := do
  let mask_arr : Option NDArray2 ←
    match mask with
    | some m =>
      if m.dim2 = 1 then pure (some ⟨m.dim0, m.dim1, fun r c => m.val r c 0⟩)
      else throw PyErr.assertionError
    | none => pure none
  let data_arr : NDArray3 V :=
    match planar_configuration with
    | .chunky => ⟨data.dim2, data.dim0, data.dim1, fun b r c => data.val r c b⟩
    | .planar => data
  pure { data := data_arr, mask := mask_arr, width := data_arr.dim2,
         height := data_arr.dim1, count := data_arr.dim0,
         transform := transform, crs := crs, nodata := nodata }

/-- A tile with its grid position (`_tile.py` class `Tile`). -/
structure Tile (V : Type) where
  x : ℤ
  y : ℤ
  array : RasterArray V

/-! ### Image views and the fetch protocol -/

/-- The image-view fields consumed by the two `read` revisions (the
`CanFetchTiles` / `HasTiffReference` protocols): pixel dimensions, tile
dimensions, transform, CRS, and whether a mask IFD is attached. -/
structure ImageView where
  width : ℤ
  height : ℤ
  tile_width : ℤ
  tile_height : ℤ
  transform : Affine ℚ
  crs : ℕ
  hasMaskIfd : Bool

/-- Python `range(a, b)` over ℤ. -/
def pyRange (a b : ℤ) : List ℤ :=
  (List.range (b - a).toNat).map (fun (i : ℕ) => a + i)

/-- The tile-coordinate pairs built by `read` in `_read.py` lines 92-97:
`tx` is the outer loop (x-major order).  The source carries two parallel
lists `xs`, `ys`; we keep the zipped pairs. -/
def coverXMajor (txs txe tys tye : ℤ) : List (ℤ × ℤ) :=
  (pyRange txs txe).flatMap (fun tx => (pyRange tys tye).map (fun ty => (tx, ty)))

/-- The tile-coordinate pairs built by `FetchTileMixin.read` in `_fetch.py`
lines 213-219: `ty` is the outer loop (y-major order). -/
def coverYMajor (txs txe tys tye : ℤ) : List (ℤ × ℤ) :=
  (pyRange tys tye).flatMap (fun ty => (pyRange txs txe).map (fun tx => (tx, ty)))

/-- The `fetch_tiles` contract of `_read.py` (`CanFetchTiles.fetch_tiles`):
one `Tile` per requested coordinate, in request order (spec §5), carrying
the decoded content fixed for that coordinate.  Decoding itself belongs to
the TIFF layer and is supplied as the `contents` oracle. -/
def fetchTilesOracle {V : Type} (contents : ℤ → ℤ → RasterArray V)
    (xys : List (ℤ × ℤ)) : List (Tile V) :=
  xys.map (fun p => ⟨p.1, p.2, contents p.1 p.2⟩)

/-! ### The `_read.py` revision: `read` + `assemble_tiles` -/

/-- One iteration of the `assemble_tiles` loop (`_read.py` lines 164-200):
build the tile's image-coordinate window (re-validated by the `Window`
constructor), intersect it with the target window (`WindowError` on empty
overlap), and copy the overlapping data (and mask) rectangles; numpy slice
assignment is modelled as a pointwise valuation override on the destination
region (the band axis `:` copies every band). -/
def assembleStep {V : Type} (window : Window) (tile_width tile_height : ℤ)
    (acc : NDArray3 V × Option NDArray2) (t : Tile V) :
    Except PyErr (NDArray3 V × Option NDArray2) := do
  let tile_window ← Window.make (t.x * tile_width) (t.y * tile_height)
    t.array.width t.array.height
  let overlap ← window.intersection tile_window
  let src_col_start := overlap.col_off - tile_window.col_off
  let src_row_start := overlap.row_off - tile_window.row_off
  let dst_col_start := overlap.col_off - window.col_off
  let dst_col_stop := dst_col_start + overlap.width
  let dst_row_start := overlap.row_off - window.row_off
  let dst_row_stop := dst_row_start + overlap.height
  let data' : NDArray3 V := { acc.1 with
    val := fun b r c =>
      if dst_row_start ≤ r ∧ r < dst_row_stop ∧ dst_col_start ≤ c ∧ c < dst_col_stop then
        t.array.data.val b (r - dst_row_start + src_row_start)
          (c - dst_col_start + src_col_start)
      else acc.1.val b r c }
  let mask' : Option NDArray2 :=
    match acc.2, t.array.mask with
    | some om, some tm => some { om with
        val := fun r c =>
          if dst_row_start ≤ r ∧ r < dst_row_stop ∧ dst_col_start ≤ c ∧ c < dst_col_stop then
            tm.val (r - dst_row_start + src_row_start) (c - dst_col_start + src_col_start)
          else om.val r c }
    | om, _ => om
  pure (data', mask')

/-- Function `assemble_tiles` (`_read.py` lines 141-201): fold the copy loop
over the fetched tiles, mutating the output buffers. -/
def assemble_tiles {V : Type} (tiles : List (Tile V)) (window : Window)
    (tile_width tile_height : ℤ) (output_data : NDArray3 V)
    (output_mask : Option NDArray2) :
    Except PyErr (NDArray3 V × Option NDArray2) :=
  tiles.foldlM (assembleStep window tile_width tile_height)
    (output_data, output_mask)

/-- Function `read` (`_read.py` lines 62-138), with the fetch/decode results
supplied by the `contents` oracle and `fill` the arbitrary content of the
`np.empty` allocation.  The `WindowLike` tuple branch (`Window.from_slices`)
is not modelled; callers pass a `Window` or none for the full image. -/
def read {V : Type} (view : ImageView) (contents : ℤ → ℤ → RasterArray V)
    (fill : V) (window : Option Window) : Except PyErr (RasterArray V) := do
  let win ← match window with
    | none => Window.make 0 0 view.width view.height
    | some w => pure w
  if win.col_off + win.width > view.width ∨ win.row_off + win.height > view.height then
    throw PyErr.indexError
  let tile_x_start := Int.fdiv win.col_off view.tile_width
  let tile_x_stop := Int.fdiv (win.col_off + win.width - 1) view.tile_width + 1
  let tile_y_start := Int.fdiv win.row_off view.tile_height
  let tile_y_stop := Int.fdiv (win.row_off + win.height - 1) view.tile_height + 1
  let xys := coverXMajor tile_x_start tile_x_stop tile_y_start tile_y_stop
  let tiles := fetchTilesOracle contents xys
  let first_tile ← match tiles with
    | [] => throw PyErr.indexError
    | t :: _ => pure t
  let num_bands := first_tile.array.count
  let output_data := NDArray3.emptyBuf num_bands win.height win.width fill
  let output_mask := if view.hasMaskIfd then some (NDArray2.ones win.height win.width) else none
  let (final_data, final_mask) ← assemble_tiles tiles win view.tile_width
    view.tile_height output_data output_mask
  let window_transform := view.transform.mul
    (Affine.translation (win.col_off : ℚ) (win.row_off : ℚ))
  pure { data := final_data, mask := final_mask, width := win.width,
         height := win.height, count := num_bands, transform := window_transform,
         crs := view.crs, nodata := none }

/-! ### The `_fetch.py` revision: `FetchTileMixin.read` -/

/-- One iteration of the stitch loop in `FetchTileMixin.read` (`_fetch.py`
lines 243-285): the tile's grid coordinate is recomputed from its
enumeration index (`i // num_tiles_x`, `i % num_tiles_x`), the overlap is
computed with inline max/min (never raising; an empty overlap writes an
empty slice), and the data/mask rectangles are copied. -/
def fetchStitchStep {V : Type}
    (col_start col_stop row_start row_stop : ℤ)
    (tile_x_start tile_y_start num_tiles_x tile_width tile_height : ℤ)
    (acc : NDArray3 V × Option NDArray2) (it : ℕ × RasterArray V) :
    NDArray3 V × Option NDArray2 :=
  let i : ℤ := (it.1 : ℤ)
  let tile := it.2
  let tile_grid_y := Int.fdiv i num_tiles_x
  let tile_grid_x := Int.fmod i num_tiles_x
  let tx := tile_x_start + tile_grid_x
  let ty := tile_y_start + tile_grid_y
  let tile_pixel_col_start := tx * tile_width
  let tile_pixel_row_start := ty * tile_height
  let overlap_col_start := max col_start tile_pixel_col_start
  let overlap_col_stop := min col_stop (tile_pixel_col_start + tile.width)
  let overlap_row_start := max row_start tile_pixel_row_start
  let overlap_row_stop := min row_stop (tile_pixel_row_start + tile.height)
  let src_col_start := overlap_col_start - tile_pixel_col_start
  let src_row_start := overlap_row_start - tile_pixel_row_start
  let dst_col_start := overlap_col_start - col_start
  let dst_col_stop := overlap_col_stop - col_start
  let dst_row_start := overlap_row_start - row_start
  let dst_row_stop := overlap_row_stop - row_start
  let data' : NDArray3 V := { acc.1 with
    val := fun b r c =>
      if dst_row_start ≤ r ∧ r < dst_row_stop ∧ dst_col_start ≤ c ∧ c < dst_col_stop then
        tile.data.val b (r - dst_row_start + src_row_start)
          (c - dst_col_start + src_col_start)
      else acc.1.val b r c }
  let mask' : Option NDArray2 :=
    match acc.2, tile.mask with
    | some om, some tm => some { om with
        val := fun r c =>
          if dst_row_start ≤ r ∧ r < dst_row_stop ∧ dst_col_start ≤ c ∧ c < dst_col_stop then
            tm.val (r - dst_row_start + src_row_start) (c - dst_col_start + src_col_start)
          else om.val r c }
    | om, _ => om
  (data', mask')

/-- Method `FetchTileMixin.read` (`_fetch.py` lines 166-298), over the same
decoded-content oracle.  Its `fetch_tiles` returns the decoded Arrays
directly (`list[Array]`), the window is the rasterio-style tuple
`((row_start, row_stop), (col_start, col_stop))`, and the loop enumerates
the tiles in y-major order. -/
def readF {V : Type} (view : ImageView) (contents : ℤ → ℤ → RasterArray V)
    (fill : V) (window : (ℤ × ℤ) × (ℤ × ℤ)) : Except PyErr (RasterArray V) := do
  let ((row_start, row_stop), (col_start, col_stop)) := window
  if row_start < 0 ∨ col_start < 0 then throw PyErr.indexError
  if row_stop > view.height ∨ col_stop > view.width then throw PyErr.indexError
  if row_start ≥ row_stop ∨ col_start ≥ col_stop then throw PyErr.indexError
  let tile_x_start := Int.fdiv col_start view.tile_width
  let tile_x_stop := Int.fdiv (col_stop - 1) view.tile_width + 1
  let tile_y_start := Int.fdiv row_start view.tile_height
  let tile_y_stop := Int.fdiv (row_stop - 1) view.tile_height + 1
  let xys := coverYMajor tile_x_start tile_x_stop tile_y_start tile_y_stop
  let tiles := xys.map (fun p => contents p.1 p.2)
  let window_height := row_stop - row_start
  let window_width := col_stop - col_start
  let first_tile ← match tiles with
    | [] => throw PyErr.indexError
    | t :: _ => pure t
  let num_bands := first_tile.count
  let output_data := NDArray3.emptyBuf num_bands window_height window_width fill
  let has_mask := tiles.any (fun t => t.mask.isSome)
  let output_mask := if has_mask then some (NDArray2.ones window_height window_width) else none
  let num_tiles_x := tile_x_stop - tile_x_start
  let stitched := tiles.enum.foldl
    (fetchStitchStep col_start col_stop row_start row_stop
      tile_x_start tile_y_start num_tiles_x view.tile_width view.tile_height)
    (output_data, output_mask)
  let window_transform := view.transform.mul
    (Affine.translation (col_start : ℚ) (row_start : ℚ))
  pure { data := stitched.1, mask := stitched.2, width := window_width,
         height := window_height, count := num_bands, transform := window_transform,
         crs := view.crs, nodata := none }

/-! ### The fetch_tile implementations (`_fetch.py`, `_overview.py`) -/

/-- Method `FetchTileMixin.fetch_tile` (`_fetch.py` lines 85-113), with the
decode results as oracles.  The body fetches and decodes the tile (and the
mask when a mask IFD is present), computes the per-tile transform, and then
calls `Array._create(data=..., mask=..., planar_configuration=..., crs=...,
transform=...)`.  `Array._create` declares `nodata` as a required
keyword-only parameter with no default (`_array.py` line 60), and the call
supplies none, so Python raises `TypeError` while binding the call
arguments, before `_create` runs — on every invocation. -/
def FetchTileMixin.fetchTile {V : Type} (view : ImageView)
    (_tile_data : NDArray3 V) (_mask_data : Option (NDArray3 Bool))
    (_planar_configuration : PlanarConfiguration) (x y : ℤ) :
    Except PyErr (RasterArray V) :=
  let _tile_transform := view.transform.mul
    (Affine.translation ((x * view.tile_width : ℤ) : ℚ)
      ((y * view.tile_height : ℤ) : ℚ))
  Except.error PyErr.typeError

/-- The `Overview` fields consumed by its `fetch_tile` and by the `width`,
`height`, `tile_width`, `tile_height` and `transform` properties
(`_overview.py`): its own IFD's dimensions plus the parent GeoTIFF's
transform, dimensions and CRS. -/
structure OverviewModel where
  image_width : ℤ
  image_height : ℤ
  ifd_tile_width : Option ℤ
  ifd_tile_height : Option ℤ
  parent_transform : Affine ℚ
  parent_width : ℤ
  parent_height : ℤ
  parent_crs : ℕ

/-- Property `Overview.width`. -/
def OverviewModel.width (o : OverviewModel) : ℤ := o.image_width

/-- Property `Overview.height`. -/
def OverviewModel.height (o : OverviewModel) : ℤ := o.image_height

/-- Property `Overview.tile_width`: Python `self._ifd[1].tile_width or
self.width` — `or` falls through both on `None` and on a zero value. -/
def OverviewModel.tile_width (o : OverviewModel) : ℤ :=
  match o.ifd_tile_width with
  | some v => if v = 0 then o.width else v
  | none => o.width

/-- Property `Overview.tile_height`, likewise. -/
def OverviewModel.tile_height (o : OverviewModel) : ℤ :=
  match o.ifd_tile_height with
  | some v => if v = 0 then o.height else v
  | none => o.height

/-- Property `Overview.transform` (`_overview.py` lines 167-185): the parent
transform composed with the up-scale by `(full / overview)` per axis.
Python float division is modelled as exact ℚ division (a zero overview
dimension would raise ZeroDivisionError; in ℚ it divides to 0 and is
excluded by hypotheses wherever it matters). -/
def OverviewModel.transform (o : OverviewModel) : Affine ℚ :=
  let scale_x : ℚ := (o.parent_width : ℚ) / (o.image_width : ℚ)
  let scale_y : ℚ := (o.parent_height : ℚ) / (o.image_height : ℚ)
  o.parent_transform.mul (Affine.scale scale_x scale_y)

/-- Method `Overview.fetch_tile` (`_overview.py` lines 65-100), with the
decode results as oracles.  After computing the per-tile transform, the
body constructs `Array(data=..., mask=..., crs=..., transform=...,
width=self.width, height=self.height)` — the `Array` dataclass requires a
`count` field with no default (`_array.py` line 39), so this call raises
`TypeError` on every invocation.  (Were the call accepted, it would also set
`width`/`height` to the overview's full image dimensions, not the tile's.)
-/
def OverviewModel.fetchTile {V : Type} (o : OverviewModel)
    (_tile_data : NDArray3 V) (_mask_data : Option (NDArray3 Bool))
    (x y : ℤ) : Except PyErr (RasterArray V) :=
  let _tile_transform := o.transform.mul
    (Affine.translation ((x * o.tile_width : ℤ) : ℚ)
      ((y * o.tile_height : ℤ) : ℚ))
  Except.error PyErr.typeError

/-! ### Write regions: the common form of both stitch loops -/

/-- The destination/source rectangle that one tile write covers (derived
form shared by the correctness lemmas for both read revisions). -/
structure WriteRegion where
  dstRowStart : ℤ
  dstRowStop : ℤ
  dstColStart : ℤ
  dstColStop : ℤ
  srcRowStart : ℤ
  srcColStart : ℤ
deriving DecidableEq, Repr

/-- The write rectangle for the tile at grid coordinate `(x, y)` with
content dims `(cw, ch)`, against the pixel window
`[col_start, col_stop) × [row_start, row_stop)`. -/
def writeRegion (col_start col_stop row_start row_stop tw th x y cw ch : ℤ) :
    WriteRegion :=
  { dstRowStart := max row_start (y * th) - row_start
    dstRowStop := min row_stop (y * th + ch) - row_start
    dstColStart := max col_start (x * tw) - col_start
    dstColStop := min col_stop (x * tw + cw) - col_start
    srcRowStart := max row_start (y * th) - y * th
    srcColStart := max col_start (x * tw) - x * tw }

/-- Membership of an output cell in a write rectangle. -/
def inWriteRegion (wr : WriteRegion) (r c : ℤ) : Prop :=
  wr.dstRowStart ≤ r ∧ r < wr.dstRowStop ∧ wr.dstColStart ≤ c ∧ c < wr.dstColStop

instance (wr : WriteRegion) (r c : ℤ) : Decidable (inWriteRegion wr r c) := by
  unfold inWriteRegion; infer_instance

/-- One tile write on the data buffer, in the common form. -/
def applyWrite {V : Type} (t : RasterArray V) (wr : WriteRegion)
    (d : NDArray3 V) : NDArray3 V :=
  { d with val := fun b r c =>
      if wr.dstRowStart ≤ r ∧ r < wr.dstRowStop ∧ wr.dstColStart ≤ c ∧ c < wr.dstColStop then
        t.data.val b (r - wr.dstRowStart + wr.srcRowStart) (c - wr.dstColStart + wr.srcColStart)
      else d.val b r c }

/-- One tile write on the mask plane, in the common form. -/
def applyMaskWrite {V : Type} (t : RasterArray V) (wr : WriteRegion)
    (m : Option NDArray2) : Option NDArray2 :=
  match m, t.mask with
  | some om, some tm => some { om with
      val := fun r c =>
        if wr.dstRowStart ≤ r ∧ r < wr.dstRowStop ∧ wr.dstColStart ≤ c ∧ c < wr.dstColStop then
          tm.val (r - wr.dstRowStart + wr.srcRowStart) (c - wr.dstColStart + wr.srcColStart)
        else om.val r c }
  | om, _ => om

/-- The write rectangle of a fetched tile against the target window. -/
def tileWR {V : Type} (window : Window) (tw th : ℤ) (t : Tile V) : WriteRegion :=
  writeRegion window.col_off window.colStop window.row_off window.rowStop tw th
    t.x t.y t.array.width t.array.height

/-- Well-sized decoded tile contents: every tile's dims lie between the
clipped edge size (at least one pixel) and the full tile pitch.  Decoded
TIFF tiles are either full tiles or tiles clipped at the image edge, so the
decode results of any valid tiled image satisfy this. -/
def GoodContents {V : Type} (view : ImageView)
    (contents : ℤ → ℤ → RasterArray V) : Prop :=
  ∀ x y : ℤ,
    max 1 (min view.tile_width (view.width - x * view.tile_width)) ≤
      (contents x y).width ∧
    (contents x y).width ≤ view.tile_width ∧
    max 1 (min view.tile_height (view.height - y * view.tile_height)) ≤
      (contents x y).height ∧
    (contents x y).height ≤ view.tile_height

/-- For valid windows, a successful intersection is exactly the max/min
rectangle. -/
theorem intersection_eq_ok_of_intersects (a b : Window) (ha : a.Valid)
    (hb : b.Valid) (h : a.intersects b = true) :
    a.intersection b = .ok
      ⟨max a.col_off b.col_off, max a.row_off b.row_off,
       min a.colStop b.colStop - max a.col_off b.col_off,
       min a.rowStop b.rowStop - max a.row_off b.row_off⟩ := by
  obtain ⟨ha1, ha2, ha3, ha4⟩ := ha
  obtain ⟨hb1, hb2, hb3, hb4⟩ := hb
  simp only [Window.intersects, decide_eq_true_eq, Bool.and_eq_true,
    Window.colStop, Window.rowStop] at h
  obtain ⟨h1, h2⟩ := h
  simp only [Window.intersection, Window.make, Window.colStop, Window.rowStop]
  rw [if_neg (by omega), if_neg (by omega), if_neg (by omega), if_neg (by omega)]

/-- Claim C5: for all (valid) windows `a` and `b`, `a.intersection(b)` raises
a `WindowError` iff `a` and `b` do not overlap; when they do overlap,
`a.intersection(b)` equals `b.intersection(a)`; and `a.intersection(a)`
equals `a`. -/
theorem window_intersection_algebra (a b : Window) (ha : a.Valid) (hb : b.Valid) :
    (a.intersection b = .error .windowError ↔ a.intersects b = false)
    ∧ (a.intersects b = true → a.intersection b = b.intersection a)
    ∧ a.intersection a = .ok a := by
  refine ⟨?_, ?_, ?_⟩
  · constructor
    · intro herr
      by_contra hne
      rw [Bool.not_eq_false] at hne
      rw [intersection_eq_ok_of_intersects a b ha hb hne] at herr
      exact Except.noConfusion herr
    · intro hni
      unfold Window.intersection
      simp only [Window.intersects, decide_eq_true_eq, Bool.and_eq_true] at hni
      rw [if_pos]
      rcases Bool.and_eq_false_iff.mp hni with h | h <;>
        simp only [decide_eq_false_iff_not, not_lt] at h <;> omega
  · intro hi
    have hi' : b.intersects a = true := by
      simp only [Window.intersects, decide_eq_true_eq, Bool.and_eq_true,
        Window.colStop, Window.rowStop] at hi ⊢
      omega
    rw [intersection_eq_ok_of_intersects a b ha hb hi,
      intersection_eq_ok_of_intersects b a hb ha hi']
    congr 1
    simp only [Window.mk.injEq, Window.colStop, Window.rowStop]
    omega
  · have hself : a.intersects a = true := by
      obtain ⟨_, _, h3, h4⟩ := ha
      simp only [Window.intersects, Window.colStop, Window.rowStop,
        Bool.and_eq_true, decide_eq_true_eq]
      omega
    rw [intersection_eq_ok_of_intersects a a ha ha hself]
    obtain ⟨c, r, w, h⟩ := a
    simp only [Except.ok.injEq, Window.mk.injEq, Window.colStop, Window.rowStop]
    omega

/-- Witness for C5 at concrete windows. -/
theorem window_intersection_algebra_witness :
    let a : Window := ⟨0, 0, 4, 4⟩
    let b : Window := ⟨2, 2, 4, 4⟩
    (a.intersection b = .error .windowError ↔ a.intersects b = false)
    ∧ (a.intersects b = true → a.intersection b = b.intersection a)
    ∧ a.intersection a = .ok a :=
  window_intersection_algebra ⟨0, 0, 4, 4⟩ ⟨2, 2, 4, 4⟩ (by decide) (by decide)

/-- Claim C7 (failing input): on a TIFF with no IFDs, `GeoTIFF.__init__`
raises `IndexError` from the `tiff.ifds[0]` subscript before reaching its own
"TIFF does not contain any IFDs" `ValueError`; it does not fail with the
"not a GeoTIFF" open error. -/
theorem geotiff_init_empty_ifds_eval :
    GeoTIFF.init [] = .error PyErr.indexError ∧
      PyErr.indexError ≠ PyErr.valueError := by
  constructor
  · rfl
  · decide

/-- Claim C8: with a user-defined ellipsoid (geog_ellipsoid absent or 32767),
resolution fails iff `geog_semi_major_axis` is absent or both
`geog_inv_flattening` and `geog_semi_minor_axis` are absent; when both of the
latter are present, `geog_inv_flattening` is used and `geog_semi_minor_axis`
is ignored. -/
theorem user_defined_ellipsoid_resolution (gkd : GeoKeyDir)
    (h : gkd.geog_ellipsoid = none ∨ gkd.geog_ellipsoid = some 32767) :
    ((∃ e, build_ellipsoid_params gkd = .error e) ↔
      gkd.geog_semi_major_axis = none ∨
        (gkd.geog_inv_flattening = none ∧ gkd.geog_semi_minor_axis = none))
    ∧ (∀ a i m, gkd.geog_semi_major_axis = some a →
        gkd.geog_inv_flattening = some i → gkd.geog_semi_minor_axis = some m →
        build_ellipsoid_params gkd = .ok ⟨.userDefined, some a, some i, none⟩) := by
  have hb : build_ellipsoid_params gkd = user_defined_ellipsoid gkd := by
    rcases h with h | h <;> simp [build_ellipsoid_params, h]
  rw [hb]
  constructor
  · unfold user_defined_ellipsoid
    rcases hsm : gkd.geog_semi_major_axis with _ | a
    · simp
    · rcases hif : gkd.geog_inv_flattening with _ | i
      · rcases hmn : gkd.geog_semi_minor_axis with _ | m <;> simp
      · simp
  · intro a i m hsm hif _
    unfold user_defined_ellipsoid
    rw [hsm, hif]

/-- Witness for C8 at a concrete GeoKeyDirectory carrying both
`geog_inv_flattening` and `geog_semi_minor_axis`. -/
theorem user_defined_ellipsoid_resolution_witness :
    let gkd : GeoKeyDir := ⟨some 32767, some 6378137, some 298, some 6356752⟩
    ((∃ e, build_ellipsoid_params gkd = .error e) ↔
      gkd.geog_semi_major_axis = none ∨
        (gkd.geog_inv_flattening = none ∧ gkd.geog_semi_minor_axis = none))
    ∧ (∀ a i m, gkd.geog_semi_major_axis = some a →
        gkd.geog_inv_flattening = some i → gkd.geog_semi_minor_axis = some m →
        build_ellipsoid_params gkd = .ok ⟨.userDefined, some a, some i, none⟩) :=
  user_defined_ellipsoid_resolution ⟨some 32767, some 6378137, some 298, some 6356752⟩
    (Or.inr rfl)

/-! ### Lemmas about the classification dictionaries -/

/-- Inserting a fresh key appends. -/
theorem dictInsert_fresh {K V : Type} [DecidableEq K] (m : List (K × V)) (k : K)
    (v : V) (h : k ∉ m.map Prod.fst) : dictInsert m k v = m ++ [(k, v)] := by
  simp [dictInsert, h]

/-- Looking up a hit in a dims-keyed association list yields a member with
those dims. -/
theorem dictGet?_map_dims_some {l : List IFD} {k : ℕ × ℕ} {d : IFD}
    (h : dictGet? (l.map (fun x => (x.dims, x))) k = some d) :
    d ∈ l ∧ d.dims = k := by
  induction l with
  | nil => simp [dictGet?] at h
  | cons a t ih =>
    rw [dictGet?, List.map_cons, List.find?_cons] at h
    by_cases ha : a.dims = k
    · rw [decide_eq_true ha] at h
      have h' : some a = some d := h
      have h'' : a = d := by injection h'
      subst h''
      exact ⟨List.mem_cons_self _ _, ha⟩
    · rw [decide_eq_false ha] at h
      have h' : dictGet? (t.map (fun x => (x.dims, x))) k = some d := h
      have := ih h'
      exact ⟨List.mem_cons_of_mem _ this.1, this.2⟩

/-- A miss in a dims-keyed association list means no member has those dims. -/
theorem dictGet?_map_dims_none {l : List IFD} {k : ℕ × ℕ} :
    dictGet? (l.map (fun x => (x.dims, x))) k = none ↔ k ∉ l.map IFD.dims := by
  induction l with
  | nil => simp [dictGet?]
  | cons a t ih =>
    rw [dictGet?, List.map_cons, List.find?_cons]
    by_cases ha : a.dims = k
    · rw [decide_eq_true ha]
      show some a = none ↔ k ∉ List.map IFD.dims (a :: t)
      simp [← ha]
    · rw [decide_eq_false ha]
      show dictGet? (t.map (fun x => (x.dims, x))) k = none ↔
        k ∉ List.map IFD.dims (a :: t)
      rw [ih]
      simp [Ne.symm ha]

/-- With pairwise-distinct dims, lookup of a member's dims finds it. -/
theorem dictGet?_map_dims_self {l : List IFD} (hnd : (l.map IFD.dims).Nodup)
    {d : IFD} (hd : d ∈ l) :
    dictGet? (l.map (fun x => (x.dims, x))) d.dims = some d := by
  induction l with
  | nil => simp at hd
  | cons a t ih =>
    simp only [List.map_cons, List.nodup_cons] at hnd
    rcases List.mem_cons.mp hd with rfl | hmem
    · rw [dictGet?, List.map_cons, List.find?_cons, decide_eq_true rfl]
      rfl
    · have hne : a.dims ≠ d.dims := fun he =>
        hnd.1 (he ▸ List.mem_map_of_mem IFD.dims hmem)
      rw [dictGet?, List.map_cons, List.find?_cons, decide_eq_false hne]
      show dictGet? (t.map (fun x => (x.dims, x))) d.dims = some d
      exact ih hnd.2 hmem

theorem classifyLoop_def (rest : List IFD) :
    classifyLoop rest = rest.foldl classifyStep ([], []) := rfl

/-- Generalized characterization of the classification loop: with
pairwise-distinct data dims and mask dims that are also fresh for the
accumulators, the loop appends the filtered, dims-keyed sublists. -/
theorem classifyLoop_go :
    ∀ (rest : List IFD) (acc1 acc2 : List ((ℕ × ℕ) × IFD)),
      ((rest.filter (fun i => !is_mask_ifd i)).map IFD.dims).Nodup →
      ((rest.filter is_mask_ifd).map IFD.dims).Nodup →
      (∀ i ∈ rest, is_mask_ifd i = false → i.dims ∉ acc1.map Prod.fst) →
      (∀ i ∈ rest, is_mask_ifd i = true → i.dims ∉ acc2.map Prod.fst) →
      rest.foldl classifyStep (acc1, acc2) =
        (acc1 ++ (rest.filter (fun i => !is_mask_ifd i)).map (fun d => (d.dims, d)),
         acc2 ++ (rest.filter is_mask_ifd).map (fun d => (d.dims, d)))
  | [], acc1, acc2, _, _, _, _ => by simp
  | a :: t, acc1, acc2, hd, hm, h1, h2 => by
    rw [List.foldl_cons]
    cases hmask : is_mask_ifd a with
    | true =>
      have hfd : (a :: t).filter (fun i => !is_mask_ifd i) =
          t.filter (fun i => !is_mask_ifd i) := by
        simp [List.filter_cons, hmask]
      have hfm : (a :: t).filter is_mask_ifd = a :: t.filter is_mask_ifd := by
        simp [List.filter_cons, hmask]
      rw [hfd] at hd
      rw [hfm, List.map_cons, List.nodup_cons] at hm
      rw [show classifyStep (acc1, acc2) a = (acc1, acc2 ++ [(a.dims, a)]) by
        rw [classifyStep, if_pos hmask,
          dictInsert_fresh _ _ _ (h2 a (List.mem_cons_self a t) hmask)]]
      rw [classifyLoop_go t acc1 (acc2 ++ [(a.dims, a)]) hd hm.2
        (fun i hi hf => h1 i (List.mem_cons_of_mem a hi) hf)
        (fun i hi ht => by
          simp only [List.map_append, List.mem_append, List.map_cons, List.map_nil,
            List.mem_cons, List.not_mem_nil, or_false, not_or]
          refine ⟨h2 i (List.mem_cons_of_mem a hi) ht, fun he => ?_⟩
          exact hm.1 (he ▸ List.mem_map_of_mem IFD.dims (List.mem_filter.mpr ⟨hi, ht⟩)))]
      rw [hfd, hfm]
      simp [List.append_assoc]
    | false =>
      have hfd : (a :: t).filter (fun i => !is_mask_ifd i) =
          a :: t.filter (fun i => !is_mask_ifd i) := by
        simp [List.filter_cons, hmask]
      have hfm : (a :: t).filter is_mask_ifd = t.filter is_mask_ifd := by
        simp [List.filter_cons, hmask]
      rw [hfd, List.map_cons, List.nodup_cons] at hd
      rw [hfm] at hm
      rw [show classifyStep (acc1, acc2) a = (acc1 ++ [(a.dims, a)], acc2) by
        rw [classifyStep, if_neg (by simp [hmask]),
          dictInsert_fresh _ _ _ (h1 a (List.mem_cons_self a t) hmask)]]
      rw [classifyLoop_go t (acc1 ++ [(a.dims, a)]) acc2 hd.2 hm
        (fun i hi hf => by
          simp only [List.map_append, List.mem_append, List.map_cons, List.map_nil,
            List.mem_cons, List.not_mem_nil, or_false, not_or]
          refine ⟨h1 i (List.mem_cons_of_mem a hi) hf, fun he => ?_⟩
          exact hd.1 (he ▸ List.mem_map_of_mem IFD.dims
            (List.mem_filter.mpr ⟨hi, by simp [hf]⟩)))
        (fun i hi ht => h2 i (List.mem_cons_of_mem a hi) ht)]
      rw [hfd, hfm]
      simp [List.append_assoc]

/-- Characterization of the classification loop when all data dims and all
mask dims are pairwise distinct: the two dictionaries are exactly the
filtered sublists keyed by dims, in input order. -/
theorem classifyLoop_eq (rest : List IFD)
    (hd : ((rest.filter (fun i => !is_mask_ifd i)).map IFD.dims).Nodup)
    (hm : ((rest.filter is_mask_ifd).map IFD.dims).Nodup) :
    classifyLoop rest =
      ((rest.filter (fun i => !is_mask_ifd i)).map (fun d => (d.dims, d)),
       (rest.filter is_mask_ifd).map (fun d => (d.dims, d))) := by
  rw [classifyLoop_def]
  simpa using classifyLoop_go rest [] [] hd hm (by simp) (by simp)

/-- Claim C2: at open time every non-primary directory is classified as a
mask IFD iff bit 2 of `new_subfile_type` is set and its photometric
interpretation is TransparencyMask; the other non-primary directories are
the data IFDs and are emitted as the overview list sorted by
`image_width * image_height` descending, each paired with the mask IFD of
identical dimensions when one exists; a mask IFD with no matching data IFD
does not appear in the overview list.  (Dimension keys are assumed pairwise
distinct within the data IFDs and within the mask IFDs; the spec leaves
duplicated dimensions unspecified.) -/
theorem classify_overviews_sorted_and_masked (primary : IFD) (rest : List IFD)
    (g : GeoKeyDir) (hg : primary.geo_key_directory = some g)
    (hd : ((rest.filter (fun i => !is_mask_ifd i)).map IFD.dims).Nodup)
    (hm : ((rest.filter is_mask_ifd).map IFD.dims).Nodup) :
    (∀ i : IFD, is_mask_ifd i = true ↔
      ((∃ n, i.new_subfile_type = some n ∧ n &&& 4 ≠ 0) ∧
        i.photometric_interpretation = Photometric.transparencyMask))
    ∧ ∃ m : GeoTIFFModel, GeoTIFF.init (primary :: rest) = .ok m
      ∧ (m.overviews.map Prod.fst).Perm (rest.filter (fun i => !is_mask_ifd i))
      ∧ List.Pairwise (fun p q =>
          q.1.image_width * q.1.image_height ≤ p.1.image_width * p.1.image_height)
          m.overviews
      ∧ (∀ p ∈ m.overviews,
          (∀ msk, p.2 = some msk →
            is_mask_ifd msk = true ∧ msk ∈ rest ∧ msk.dims = p.1.dims)
          ∧ (p.2 = none →
            ∀ msk ∈ rest, is_mask_ifd msk = true → msk.dims ≠ p.1.dims))
      ∧ (∀ p ∈ m.overviews, is_mask_ifd p.1 = false) := by
  constructor
  · intro i
    rcases hn : i.new_subfile_type with _ | n <;>
      simp [is_mask_ifd, hn]
  set dataL := rest.filter (fun i => !is_mask_ifd i) with hdataL
  set maskL := rest.filter is_mask_ifd with hmaskL
  set dataMap := dataL.map (fun d => (d.dims, d)) with hdataMap
  set maskMap := maskL.map (fun d => (d.dims, d)) with hmaskMap
  set sorted := sortDimsDesc (dataL.map IFD.dims) with hsortedDef
  set ov := sorted.filterMap
    (fun k => (dictGet? dataMap k).map (fun d => (d, dictGet? maskMap k))) with hov
  have hinit : GeoTIFF.init (primary :: rest) = .ok
      ⟨primary, g, dictGet? maskMap primary.dims, ov⟩ := by
    rw [GeoTIFF.init]
    simp only [List.length_cons, List.tail_cons]
    rw [classifyLoop_eq rest hd hm]
    simp only [hg, dictKeys, pure, Except.pure, Bind.bind, Except.bind]
    rw [if_neg (by omega : ¬rest.length + 1 = 0), List.map_map]
    rfl
  refine ⟨⟨primary, g, dictGet? maskMap primary.dims, ov⟩, hinit, ?_, ?_, ?_, ?_⟩
  · -- permutation with the data IFDs
    have hfst : ov.map Prod.fst = sorted.filterMap (fun k => dictGet? dataMap k) := by
      rw [hov, List.map_filterMap]
      apply List.filterMap_congr
      intro k _
      cases dictGet? dataMap k <;> simp
    have hperm1 : sorted.Perm (dataL.map IFD.dims) := List.perm_insertionSort _ _
    have hperm2 := hperm1.filterMap (fun k => dictGet? dataMap k)
    have hid : (dataL.map IFD.dims).filterMap (fun k => dictGet? dataMap k) = dataL := by
      rw [List.filterMap_map]
      have hpt : ∀ d ∈ dataL, ((fun k => dictGet? dataMap k) ∘ IFD.dims) d = some d :=
        fun d hd' => dictGet?_map_dims_self hd hd'
      rw [List.filterMap_congr hpt, List.filterMap_some]
    rw [hfst]
    rw [hid] at hperm2
    exact hperm2
  · -- sorted by area descending
    have hsorted : List.Sorted areaGE sorted := List.sorted_insertionSort areaGE _
    rw [hov]
    refine List.Pairwise.filterMap
      (fun k => (dictGet? dataMap k).map (fun d => (d, dictGet? maskMap k)))
      ?_ hsorted
    intro k k' hkk' p hp p' hp'
    rw [Option.mem_def, Option.map_eq_some'] at hp hp'
    obtain ⟨d, hdk, rfl⟩ := hp
    obtain ⟨d', hdk', rfl⟩ := hp'
    have h1 := (dictGet?_map_dims_some hdk).2
    have h2 := (dictGet?_map_dims_some hdk').2
    unfold areaGE at hkk'
    rw [← h1, ← h2] at hkk'
    simpa [IFD.dims] using hkk'
  · -- mask pairing
    intro p hp
    rw [hov, List.mem_filterMap] at hp
    obtain ⟨k, _, hk⟩ := hp
    rw [Option.map_eq_some'] at hk
    obtain ⟨d, hdk, rfl⟩ := hk
    have hdd := dictGet?_map_dims_some hdk
    constructor
    · intro msk hmsk
      simp only at hmsk
      have h2 := dictGet?_map_dims_some hmsk
      have hmem := List.mem_filter.mp h2.1
      exact ⟨hmem.2, List.mem_of_mem_filter h2.1, by rw [h2.2, hdd.2]⟩
    · intro hnone msk hmsk hmaski hne
      simp only at hnone
      rw [dictGet?_map_dims_none] at hnone
      apply hnone
      rw [← hdd.2, ← hne]
      exact List.mem_map_of_mem IFD.dims
        (List.mem_filter.mpr ⟨hmsk, hmaski⟩)
  · -- the data side of each overview is never a mask IFD
    intro p hp
    rw [hov, List.mem_filterMap] at hp
    obtain ⟨k, _, hk⟩ := hp
    rw [Option.map_eq_some'] at hk
    obtain ⟨d, hdk, rfl⟩ := hk
    have hdd := dictGet?_map_dims_some hdk
    have := (List.mem_filter.mp hdd.1).2
    simpa using this

/-- Witness for C2 on a concrete directory list: a 4x4 primary, a 2x2
overview with a matching 2x2 mask, an unmatched 9x9 mask, and a 3x3
overview. -/
theorem classify_overviews_sorted_and_masked_witness :
    let gk : GeoKeyDir := ⟨none, none, none, none⟩
    let primary : IFD := ⟨4, 4, none, Photometric.rgb, some gk⟩
    let rest : List IFD :=
      [⟨2, 2, some 0, Photometric.rgb, none⟩,
       ⟨2, 2, some 4, Photometric.transparencyMask, none⟩,
       ⟨9, 9, some 4, Photometric.transparencyMask, none⟩,
       ⟨3, 3, none, Photometric.rgb, none⟩]
    (∀ i : IFD, is_mask_ifd i = true ↔
      ((∃ n, i.new_subfile_type = some n ∧ n &&& 4 ≠ 0) ∧
        i.photometric_interpretation = Photometric.transparencyMask))
    ∧ ∃ m : GeoTIFFModel, GeoTIFF.init (primary :: rest) = .ok m
      ∧ (m.overviews.map Prod.fst).Perm (rest.filter (fun i => !is_mask_ifd i))
      ∧ List.Pairwise (fun p q =>
          q.1.image_width * q.1.image_height ≤ p.1.image_width * p.1.image_height)
          m.overviews
      ∧ (∀ p ∈ m.overviews,
          (∀ msk, p.2 = some msk →
            is_mask_ifd msk = true ∧ msk ∈ rest ∧ msk.dims = p.1.dims)
          ∧ (p.2 = none →
            ∀ msk ∈ rest, is_mask_ifd msk = true → msk.dims ≠ p.1.dims))
      ∧ (∀ p ∈ m.overviews, is_mask_ifd p.1 = false) :=
  classify_overviews_sorted_and_masked _ _ _ rfl (by decide) (by decide)

/-- Claim C9: for a colormap of uint16 rows, `as_array(uint8)` shifts each
component right by 8 bits, `as_array(uint16)` is the identity, and
`as_rasterio()[i]` is the shifted row with alpha 0 iff a nodata value is set
and equals `i`, else alpha 255. -/
theorem colormap_accessors (c : Colormap) (i : ℕ) (r g b : ℕ)
    (hi : c.cmap[i]? = some (r, g, b))
    (hr : r < 65536) (hg : g < 65536) (hb : b < 65536) :
    (c.as_array .uint8)[i]? = some (r >>> 8, g >>> 8, b >>> 8)
    ∧ c.as_array .uint16 = c.cmap
    ∧ c.as_rasterio[i]? = some (r >>> 8, g >>> 8, b >>> 8,
        if c.nodata = some (i : ℚ) then 0 else 255)
    ∧ ((c.as_rasterio[i]?).map (fun q => q.2.2.2) = some 0 ↔
        c.nodata = some (i : ℚ)) := by
  have hshift : ∀ x : ℕ, x < 65536 → (x >>> 8) % 256 = x >>> 8 := by
    intro x hx
    apply Nat.mod_eq_of_lt
    rw [Nat.shiftRight_eq_div_pow]
    omega
  have h8 : (c.as_array .uint8)[i]? = some (r >>> 8, g >>> 8, b >>> 8) := by
    rw [Colormap.as_array, List.getElem?_map, hi, Option.map_some']
    rw [hshift r hr, hshift g hg, hshift b hb]
  have halpha : (if c.nodata = some (i : ℚ) then (0 : ℕ) else 255) =
      match c.nodata with
      | none => 255
      | some nd => if (i : ℚ) ≠ nd then 255 else 0 := by
    rcases hnd : c.nodata with _ | nd
    · simp
    · by_cases he : (i : ℚ) = nd <;> simp [he]
      exact fun hh => (he hh.symm).elim
  have hras : c.as_rasterio[i]? = some (r >>> 8, g >>> 8, b >>> 8,
      if c.nodata = some (i : ℚ) then 0 else 255) := by
    rw [Colormap.as_rasterio, List.getElem?_map, List.getElem?_enum, h8]
    simp only [Option.map_some']
    rw [halpha]
  refine ⟨h8, rfl, hras, ?_⟩
  rw [hras]
  simp only [Option.map_some', Option.some.injEq]
  by_cases hc : c.nodata = some (i : ℚ) <;> simp [hc]

/-- Witness for C9 on a concrete two-entry colormap with nodata = 1. -/
theorem colormap_accessors_witness :
    let c : Colormap := ⟨[(256, 512, 65535), (77, 78, 79)], some 1⟩
    (c.as_array .uint8)[0]? = some (256 >>> 8, 512 >>> 8, 65535 >>> 8)
    ∧ c.as_array .uint16 = c.cmap
    ∧ c.as_rasterio[0]? = some (256 >>> 8, 512 >>> 8, 65535 >>> 8,
        if c.nodata = some ((0 : ℕ) : ℚ) then 0 else 255)
    ∧ ((c.as_rasterio[0]?).map (fun q => q.2.2.2) = some 0 ↔
        c.nodata = some ((0 : ℕ) : ℚ)) :=
  colormap_accessors ⟨[(256, 512, 65535), (77, 78, 79)], some 1⟩ 0 256 512 65535
    rfl (by decide) (by decide) (by decide)

/-- Claim C6 counterexample: on the rotated transform `Affine(0,1,0,1,0,0)`
(b and d non-zero), the `res` property of the `GeoTIFF` image view returns
`(a, -e) = (0, 0)`, not the claimed `(sqrt(a²+d²), sqrt(b²+e²)) = (1, 1)`. -/
theorem geotiff_res_rotated_counterexample :
    GeoTIFF.res (⟨0, 1, 0, 1, 0, 0⟩ : Affine ℝ) = (0, 0)
    ∧ TransformMixin.res (⟨0, 1, 0, 1, 0, 0⟩ : Affine ℝ) = (1, 1)
    ∧ GeoTIFF.res (⟨0, 1, 0, 1, 0, 0⟩ : Affine ℝ) ≠
      TransformMixin.res (⟨0, 1, 0, 1, 0, 0⟩ : Affine ℝ) := by
  have hmix : TransformMixin.res (⟨0, 1, 0, 1, 0, 0⟩ : Affine ℝ) = (1, 1) := by
    rw [TransformMixin.res]
    norm_num
  refine ⟨by rw [GeoTIFF.res]; norm_num, hmix, ?_⟩
  rw [hmix]
  intro hcontra
  rw [GeoTIFF.res] at hcontra
  have h0 : (0 : ℝ) = 1 := by
    have := congrArg Prod.fst hcontra
    simp at this
  norm_num at h0

/-- Claim C6 as amended: only `TransformMixin.res` (the method `Array`
inherits) computes `(sqrt(a²+d²), sqrt(b²+e²))`; the `GeoTIFF` image view
overrides `res` with `(transform.a, -transform.e)`, which agrees with that
formula exactly on unrotated transforms with `b = d = 0`, `a ≥ 0` and
`e ≤ 0`. -/
theorem geotiff_res_axis_aligned (t : Affine ℝ) (hb : t.b = 0) (hd : t.d = 0)
    (ha : 0 ≤ t.a) (he : t.e ≤ 0) :
    GeoTIFF.res t = TransformMixin.res t := by
  rw [GeoTIFF.res, TransformMixin.res, hb, hd]
  have h1 : Real.sqrt (t.a ^ 2 + 0 ^ 2) = t.a := by
    rw [show t.a ^ 2 + 0 ^ 2 = t.a ^ 2 by ring, Real.sqrt_sq ha]
  have h2 : Real.sqrt ((0 : ℝ) ^ 2 + t.e ^ 2) = -t.e := by
    rw [show (0 : ℝ) ^ 2 + t.e ^ 2 = t.e ^ 2 by ring, Real.sqrt_sq_eq_abs,
      abs_of_nonpos he]
  rw [h1, h2]

/-- Witness for the amended C6 on the concrete unrotated transform
`Affine(3, 0, 5, 0, -2, 7)`. -/
theorem geotiff_res_axis_aligned_witness :
    GeoTIFF.res (⟨3, 0, 5, 0, -2, 7⟩ : Affine ℝ) =
      TransformMixin.res (⟨3, 0, 5, 0, -2, 7⟩ : Affine ℝ) :=
  geotiff_res_axis_aligned ⟨3, 0, 5, 0, -2, 7⟩ rfl rfl (by norm_num) (by norm_num)

/-- Claim C3 (failing-input evaluation): both `fetch_tile` implementations
raise `TypeError` on every call — `Overview.fetch_tile` builds the `Array`
dataclass without its required `count` field, and
`FetchTileMixin.fetch_tile` calls `Array._create` without its required
`nodata` argument — instead of returning an Array with tile (or clipped)
dimensions; neither implementation has a `boundless` parameter at all. -/
theorem fetch_tile_type_error_eval :
    (@OverviewModel.fetchTile ℤ
        ⟨4, 4, some 2, some 2, ⟨1, 0, 0, 0, -1, 0⟩, 8, 8, 0⟩
        ⟨1, 2, 2, fun _ _ _ => 0⟩ none 0 0 = .error PyErr.typeError)
    ∧ (@FetchTileMixin.fetchTile ℤ
        ⟨8, 8, 2, 2, ⟨1, 0, 0, 0, -1, 0⟩, 0, false⟩
        ⟨2, 2, 1, fun _ _ _ => 0⟩ none PlanarConfiguration.chunky 0 0 =
          .error PyErr.typeError) :=
  ⟨rfl, rfl⟩

/-- Claim C4: a window extending past the image bounds makes `read` fail;
the raise is the source's `IndexError`, which the specification folds into
the window-error kind. -/
theorem read_out_of_bounds_window_error {V : Type} (view : ImageView)
    (contents : ℤ → ℤ → RasterArray V) (fill : V) (w : Window)
    (h : w.col_off + w.width > view.width ∨ w.row_off + w.height > view.height) :
    read view contents fill (some w) = .error PyErr.indexError
    ∧ PyErr.indexError.isWindowErrorKind = true := by
  refine ⟨?_, rfl⟩
  rw [read]
  simp only [Bind.bind, Except.bind, pure, Except.pure]
  rw [if_pos h]

/-- Witness for C4: reading `Window(0, 0, width + 1, 1)` on a 4x4 view
raises the window-kind `IndexError`. -/
theorem read_out_of_bounds_window_error_witness :
    @read ℤ ⟨4, 4, 2, 2, ⟨1, 0, 0, 0, -1, 0⟩, 0, false⟩
      (fun _ _ => ⟨⟨1, 2, 2, fun _ _ _ => 0⟩, none, 2, 2, 1,
        ⟨1, 0, 0, 0, -1, 0⟩, 0, none⟩) 0 (some ⟨0, 0, 4 + 1, 1⟩) =
        .error PyErr.indexError
    ∧ PyErr.indexError.isWindowErrorKind = true :=
  read_out_of_bounds_window_error _ _ _ _ (by left; decide)

/-! ### Integer grid arithmetic for the tile cover -/

theorem ediv_mul_le_self (a : ℤ) {d : ℤ} (hd : 0 < d) : a / d * d ≤ a :=
  Int.ediv_mul_le a (by omega)

theorem lt_ediv_succ_mul (a : ℤ) {d : ℤ} (hd : 0 < d) : a < (a / d + 1) * d :=
  Int.lt_ediv_add_one_mul_self a hd

/-- `x` is the Euclidean quotient of `g` by `d` when `x*d ≤ g < (x+1)*d`. -/
theorem ediv_eq_of_between {g d x : ℤ} (hd : 0 < d) (h1 : x * d ≤ g)
    (h2 : g < (x + 1) * d) : g / d = x := by
  have ha : x ≤ g / d := by
    have h := Int.ediv_le_ediv hd h1
    rwa [Int.mul_ediv_cancel x (by omega : d ≠ 0)] at h
  have hb : g / d < x + 1 := by
    by_contra hc
    push_neg at hc
    have h3 : (x + 1) * d ≤ g / d * d :=
      mul_le_mul_of_nonneg_right hc (by omega)
    have h4 := ediv_mul_le_self g hd
    omega
  omega

theorem mem_pyRange {a b z : ℤ} : z ∈ pyRange a b ↔ a ≤ z ∧ z < b := by
  rw [pyRange, List.mem_map]
  constructor
  · rintro ⟨i, hi, rfl⟩
    rw [List.mem_range] at hi
    omega
  · intro ⟨h1, h2⟩
    refine ⟨(z - a).toNat, ?_, by omega⟩
    rw [List.mem_range]
    omega

theorem mem_coverXMajor {txs txe tys tye : ℤ} {p : ℤ × ℤ} :
    p ∈ coverXMajor txs txe tys tye ↔
      (txs ≤ p.1 ∧ p.1 < txe) ∧ (tys ≤ p.2 ∧ p.2 < tye) := by
  rw [coverXMajor, List.mem_flatMap]
  constructor
  · rintro ⟨tx, htx, hp⟩
    rw [List.mem_map] at hp
    obtain ⟨ty, hty, rfl⟩ := hp
    exact ⟨mem_pyRange.mp htx, mem_pyRange.mp hty⟩
  · intro ⟨hx, hy⟩
    exact ⟨p.1, mem_pyRange.mpr hx, List.mem_map.mpr ⟨p.2, mem_pyRange.mpr hy, rfl⟩⟩

theorem mem_coverYMajor {txs txe tys tye : ℤ} {p : ℤ × ℤ} :
    p ∈ coverYMajor txs txe tys tye ↔
      (txs ≤ p.1 ∧ p.1 < txe) ∧ (tys ≤ p.2 ∧ p.2 < tye) := by
  rw [coverYMajor, List.mem_flatMap]
  constructor
  · rintro ⟨ty, hty, hp⟩
    rw [List.mem_map] at hp
    obtain ⟨tx, htx, rfl⟩ := hp
    exact ⟨mem_pyRange.mp htx, mem_pyRange.mp hty⟩
  · intro ⟨hx, hy⟩
    exact ⟨p.2, mem_pyRange.mpr hy, List.mem_map.mpr ⟨p.1, mem_pyRange.mpr hx, rfl⟩⟩

/-! One-dimensional facts about the tile grid of one axis: an axis window
`[off, off+len)` inside `[0, bound)`, tiles of pitch `tw`, cover tile range
`[off/tw, (off+len-1)/tw + 1)`, a tile at grid index `x` holding `cw`
cells. -/

theorem grid_start_nonneg {off tw : ℤ} (h0 : 0 ≤ off) (htw : 0 < tw) :
    0 ≤ off / tw := Int.ediv_nonneg h0 (by omega)

theorem grid_start_lt_stop {off len tw : ℤ} (hlen : 0 < len) (htw : 0 < tw) :
    off / tw < (off + len - 1) / tw + 1 := by
  have h := Int.ediv_le_ediv htw (by omega : off ≤ off + len - 1)
  omega

theorem grid_cell_tile_mem {off len tw g : ℤ} (htw : 0 < tw)
    (hg1 : off ≤ g) (hg2 : g < off + len) :
    off / tw ≤ g / tw ∧ g / tw < (off + len - 1) / tw + 1 := by
  have h1 := Int.ediv_le_ediv htw hg1
  have h2 := Int.ediv_le_ediv htw (by omega : g ≤ off + len - 1)
  omega

/-- A cover tile with well-sized content overlaps the axis window. -/
theorem grid_tile_overlap {off len bound tw x cw : ℤ} (_h0 : 0 ≤ off)
    (hlen : 0 < len) (hb : off + len ≤ bound) (htw : 0 < tw)
    (hx1 : off / tw ≤ x) (hx2 : x < (off + len - 1) / tw + 1)
    (hcw1 : max 1 (min tw (bound - x * tw)) ≤ cw) (hcw2 : cw ≤ tw) :
    max off (x * tw) < min (off + len) (x * tw + cw) := by
  have hxa : x * tw ≤ off + len - 1 := by
    have h1 : x ≤ (off + len - 1) / tw := by omega
    have h2 : x * tw ≤ (off + len - 1) / tw * tw :=
      mul_le_mul_of_nonneg_right h1 (by omega)
    have h3 := ediv_mul_le_self (off + len - 1) htw
    omega
  have hxb : off < x * tw + tw := by
    have h1 := lt_ediv_succ_mul off htw
    have h2 : (off / tw + 1) * tw ≤ (x + 1) * tw :=
      mul_le_mul_of_nonneg_right (by omega) (by omega)
    have h3 : (x + 1) * tw = x * tw + tw := by ring
    omega
  rcases le_total tw (bound - x * tw) with hmn | hmn
  · rw [min_eq_left hmn] at hcw1
    omega
  · rw [min_eq_right hmn] at hcw1
    omega

/-- Every axis cell of the window is covered by its own tile. -/
theorem grid_cell_covered {off len bound tw g cw : ℤ} (_h0 : 0 ≤ off)
    (hb : off + len ≤ bound) (htw : 0 < tw)
    (_hg1 : off ≤ g) (hg2 : g < off + len)
    (hcw1 : max 1 (min tw (bound - g / tw * tw)) ≤ cw) :
    g / tw * tw ≤ g ∧ g < g / tw * tw + cw := by
  have h1 := ediv_mul_le_self g htw
  have h2 := lt_ediv_succ_mul g htw
  have h3 : (g / tw + 1) * tw = g / tw * tw + tw := by ring
  rcases le_total tw (bound - g / tw * tw) with hmn | hmn
  · rw [min_eq_left hmn] at hcw1
    omega
  · rw [min_eq_right hmn] at hcw1
    omega

/-- Only the cell's own tile covers it: if the tile at index `x` with `cw`
cells (at most a pitch) covers `g`, then `x = g / tw`. -/
theorem grid_cover_unique {tw x cw g : ℤ} (htw : 0 < tw) (hcw2 : cw ≤ tw)
    (hg1 : x * tw ≤ g) (hg2 : g < x * tw + cw) : g / tw = x := by
  apply ediv_eq_of_between htw hg1
  have : (x + 1) * tw = x * tw + tw := by ring
  omega

/-- A fold of tile writes leaves the shape alone. -/
theorem foldl_applyWrite_shape {V : Type} :
    ∀ (ws : List (RasterArray V × WriteRegion)) (d : NDArray3 V),
      (ws.foldl (fun acc p => applyWrite p.1 p.2 acc) d).dim0 = d.dim0 ∧
      (ws.foldl (fun acc p => applyWrite p.1 p.2 acc) d).dim1 = d.dim1 ∧
      (ws.foldl (fun acc p => applyWrite p.1 p.2 acc) d).dim2 = d.dim2
  | [], _ => ⟨rfl, rfl, rfl⟩
  | p :: ps, d => foldl_applyWrite_shape ps (applyWrite p.1 p.2 d)

/-- The stitched value after a fold of tile writes: the last element whose
rectangle contains the cell wins; untouched cells keep the initial buffer
value. -/
theorem foldl_applyWrite_val {V : Type} :
    ∀ (ws : List (RasterArray V × WriteRegion)) (d : NDArray3 V) (b r c : ℤ),
      (ws.foldl (fun acc p => applyWrite p.1 p.2 acc) d).val b r c =
        match ws.reverse.find? (fun p => decide (inWriteRegion p.2 r c)) with
        | some p => p.1.data.val b (r - p.2.dstRowStart + p.2.srcRowStart)
            (c - p.2.dstColStart + p.2.srcColStart)
        | none => d.val b r c
  | [], _, _, _, _ => rfl
  | p :: ps, d, b, r, c => by
    rw [List.foldl_cons, foldl_applyWrite_val ps _ b r c, List.reverse_cons,
      List.find?_append]
    cases hfind : ps.reverse.find? (fun q => decide (inWriteRegion q.2 r c)) with
    | some q => rw [Option.or_some]
    | none =>
      rw [Option.none_or, List.find?_singleton]
      by_cases hin : inWriteRegion p.2 r c
      all_goals unfold inWriteRegion at hin
      · rw [if_pos (by simpa [inWriteRegion] using hin)]
        simp only [applyWrite]
        rw [if_pos hin]
      · rw [if_neg (by simpa [inWriteRegion] using hin)]
        simp only [applyWrite]
        rw [if_neg hin]

/-- `find?` returns the unique matching element. -/
theorem find?_eq_of_unique {α : Type} (p : α → Bool) :
    ∀ (l : List α) (a : α), a ∈ l → p a = true →
      (∀ x ∈ l, p x = true → x = a) → l.find? p = some a
  | [], a, ha, _, _ => absurd ha (List.not_mem_nil a)
  | x :: xs, a, ha, hpa, huniq => by
    rw [List.find?_cons]
    cases hx : p x with
    | true =>
      have : x = a := huniq x (List.mem_cons_self x xs) hx
      rw [this]
    | false =>
      rcases List.mem_cons.mp ha with rfl | hmem
      · rw [hx] at hpa
        exact absurd hpa (by simp)
      · exact find?_eq_of_unique p xs a hmem hpa
          (fun z hz hpz => huniq z (List.mem_cons_of_mem x hz) hpz)

/-- A fold whose step acts componentwise on a pair splits into two folds. -/
theorem foldl_pair_split {α β γ : Type} (f : α → γ → α) (g : β → γ → β) :
    ∀ (l : List γ) (a : α) (b : β),
      l.foldl (fun acc x => (f acc.1 x, g acc.2 x)) (a, b) =
        (l.foldl f a, l.foldl g b)
  | [], _, _ => rfl
  | x :: xs, a, b => foldl_pair_split f g xs (f a x) (g b x)

theorem foldl_write_split {V : Type} :
    ∀ (l : List (RasterArray V × WriteRegion)) (a : NDArray3 V)
      (b : Option NDArray2),
      l.foldl (fun acc q => (applyWrite q.1 q.2 acc.1,
          applyMaskWrite q.1 q.2 acc.2)) (a, b) =
        (l.foldl (fun acc q => applyWrite q.1 q.2 acc) a,
         l.foldl (fun acc q => applyMaskWrite q.1 q.2 acc) b)
  | [], _, _ => rfl
  | _ :: xs, _, _ => foldl_write_split xs _ _

theorem pyRange_cons {a b : ℤ} (h : a < b) : pyRange a b = a :: pyRange (a + 1) b := by
  rw [pyRange, pyRange]
  rw [show (b - a).toNat = (b - (a + 1)).toNat + 1 from by omega,
    List.range_succ_eq_map, List.map_cons, List.map_map]
  congr 1
  · simp
  · apply List.map_congr_left
    intro i _
    simp only [Function.comp_apply, Nat.succ_eq_add_one]
    push_cast
    ring

/-- A successful `assemble_tiles` step equals the canonical tile write. -/
theorem assembleStep_ok {V : Type} (window : Window) (tw th : ℤ)
    (hwv : window.Valid) (acc : NDArray3 V × Option NDArray2) (t : Tile V)
    (hx : 0 ≤ t.x * tw) (hy : 0 ≤ t.y * th)
    (hw : 0 < t.array.width) (hh : 0 < t.array.height)
    (hint : window.intersects
      ⟨t.x * tw, t.y * th, t.array.width, t.array.height⟩ = true) :
    assembleStep window tw th acc t = .ok
      (applyWrite t.array (tileWR window tw th t) acc.1,
       applyMaskWrite t.array (tileWR window tw th t) acc.2) := by
  have hmk : Window.make (t.x * tw) (t.y * th) t.array.width t.array.height =
      .ok ⟨t.x * tw, t.y * th, t.array.width, t.array.height⟩ := by
    unfold Window.make
    rw [if_neg (by omega), if_neg (by omega), if_neg (by omega)]
  have hiv : Window.Valid ⟨t.x * tw, t.y * th, t.array.width, t.array.height⟩ :=
    ⟨hx, hy, hw, hh⟩
  have hint2 := intersection_eq_ok_of_intersects window _ hwv hiv hint
  rw [assembleStep, hmk]
  simp only [Bind.bind, Except.bind]
  rw [hint2]
  simp only [pure, Except.pure, Except.ok.injEq, Prod.mk.injEq]
  constructor
  · unfold applyWrite tileWR writeRegion
    congr 1
    funext b r c
    apply if_congr ?_ ?_ rfl
    · simp only [Window.colStop, Window.rowStop]
      omega
    · rfl
  · unfold applyMaskWrite tileWR writeRegion
    rcases acc.2 with _ | om <;> rcases hm : t.array.mask with _ | tm <;>
      simp only [hm]
    congr 2
    funext r c
    apply if_congr ?_ ?_ rfl
    · simp only [Window.colStop, Window.rowStop]
      omega
    · rfl

/-- `assemble_tiles` succeeds on a list of overlapping, positive-size tiles
and computes the canonical fold of tile writes. -/
theorem assemble_tiles_ok {V : Type} (window : Window) (tw th : ℤ)
    (hwv : window.Valid) :
    ∀ (tiles : List (Tile V)) (d : NDArray3 V) (m : Option NDArray2),
      (∀ t ∈ tiles, 0 ≤ t.x * tw ∧ 0 ≤ t.y * th ∧ 0 < t.array.width ∧
        0 < t.array.height ∧
        window.intersects
          ⟨t.x * tw, t.y * th, t.array.width, t.array.height⟩ = true) →
      assemble_tiles tiles window tw th d m = .ok
        (tiles.foldl (fun acc t => applyWrite t.array (tileWR window tw th t) acc) d,
         tiles.foldl (fun acc t => applyMaskWrite t.array (tileWR window tw th t) acc) m)
  | [], _, _, _ => rfl
  | t :: ts, d, m, hc => by
    have hh := hc t (List.mem_cons_self t ts)
    have IH := assemble_tiles_ok window tw th hwv ts
      (applyWrite t.array (tileWR window tw th t) d)
      (applyMaskWrite t.array (tileWR window tw th t) m)
      (fun z hz => hc z (List.mem_cons_of_mem t hz))
    rw [assemble_tiles, List.foldlM_cons,
      assembleStep_ok window tw th hwv (d, m) t hh.1 hh.2.1 hh.2.2.1
        hh.2.2.2.1 hh.2.2.2.2]
    simp only [Bind.bind, Except.bind]
    rw [assemble_tiles] at IH
    rw [IH, List.foldl_cons, List.foldl_cons]

/-- Each `FetchTileMixin.read` stitch step equals the canonical tile write
at the grid coordinate recomputed from the enumeration index. -/
theorem fetchStitchStep_eq {V : Type} (cs ce rs re txs tys ntx tw th : ℤ)
    (hntx : 0 ≤ ntx) (acc : NDArray3 V × Option NDArray2) (i : ℕ)
    (t : RasterArray V) :
    fetchStitchStep cs ce rs re txs tys ntx tw th acc (i, t) =
      (applyWrite t (writeRegion cs ce rs re tw th (txs + (i : ℤ) % ntx)
          (tys + (i : ℤ) / ntx) t.width t.height) acc.1,
       applyMaskWrite t (writeRegion cs ce rs re tw th (txs + (i : ℤ) % ntx)
          (tys + (i : ℤ) / ntx) t.width t.height) acc.2) := by
  simp only [fetchStitchStep, Int.fdiv_eq_ediv _ hntx, Int.fmod_eq_emod _ hntx]
  rfl

/-- Closed form of the y-major cover: element `i` of the enumeration sits at
grid coordinate `(txs + i % ntx, tys + i / ntx)`. -/
theorem coverYMajor_closed (txs txe : ℤ) (hx : txs ≤ txe) :
    ∀ (n : ℕ) (tys tye : ℤ), (tye - tys).toNat = n →
      coverYMajor txs txe tys tye =
        (List.range (n * (txe - txs).toNat)).map
          (fun (i : ℕ) => (txs + (i : ℤ) % (txe - txs), tys + (i : ℤ) / (txe - txs)))
  | 0, tys, tye, hn => by
    rw [coverYMajor, show pyRange tys tye = [] from by rw [pyRange, hn]; rfl]
    simp
  | n + 1, tys, tye, hn => by
    have htys : tys < tye := by omega
    have hntx : ((txe - txs).toNat : ℤ) = txe - txs := Int.toNat_of_nonneg (by omega)
    rw [coverYMajor, pyRange_cons htys, List.flatMap_cons]
    have hrest : (pyRange (tys + 1) tye).flatMap
        (fun ty => (pyRange txs txe).map (fun tx => (tx, ty))) =
        coverYMajor txs txe (tys + 1) tye := rfl
    rw [hrest, coverYMajor_closed txs txe hx n (tys + 1) tye (by omega)]
    rw [show (n + 1) * (txe - txs).toNat =
      (txe - txs).toNat + n * (txe - txs).toNat from by ring]
    rw [List.range_add, List.map_append, List.map_map]
    congr 1
    · rw [pyRange]
      rw [List.map_map]
      apply List.map_congr_left
      intro i hi
      rw [List.mem_range] at hi
      have hilt : (i : ℤ) < txe - txs := by omega
      have hi0 : (0 : ℤ) ≤ (i : ℤ) := by omega
      simp only [Function.comp_apply, Prod.mk.injEq]
      rw [Int.emod_eq_of_lt hi0 hilt, Int.ediv_eq_zero_of_lt hi0 hilt]
      constructor
      · rfl
      · omega
    · apply List.map_congr_left
      intro j hj
      rw [List.mem_range] at hj
      have hpos : 0 < txe - txs := by
        rcases Nat.eq_zero_or_pos (txe - txs).toNat with h0 | h0
        · rw [h0] at hj; omega
        · omega
      simp only [Function.comp_apply, Prod.mk.injEq]
      have hcast : (((txe - txs).toNat + j : ℕ) : ℤ) = (j : ℤ) + 1 * (txe - txs) := by
        push_cast
        omega
      rw [hcast, Int.add_mul_emod_self, Int.add_mul_ediv_right _ _ (by omega : txe - txs ≠ 0)]
      constructor
      · rfl
      · omega

theorem coverXMajor_cons {txs txe tys tye : ℤ} (h1 : txs < txe) (h2 : tys < tye) :
    ∃ rest, coverXMajor txs txe tys tye = (txs, tys) :: rest := by
  rw [coverXMajor, pyRange_cons h1, List.flatMap_cons, pyRange_cons h2, List.map_cons]
  exact ⟨_, rfl⟩

theorem coverYMajor_cons {txs txe tys tye : ℤ} (h1 : txs < txe) (h2 : tys < tye) :
    ∃ rest, coverYMajor txs txe tys tye = (txs, tys) :: rest := by
  rw [coverYMajor, pyRange_cons h2, List.flatMap_cons, pyRange_cons h1, List.map_cons]
  exact ⟨_, rfl⟩

/-- Every fetched cover tile is positive-size and overlaps the window. -/
theorem cover_tiles_good {V : Type} (view : ImageView)
    (contents : ℤ → ℤ → RasterArray V) (win : Window)
    (htw : 0 < view.tile_width) (hth : 0 < view.tile_height)
    (hgc : GoodContents view contents) (hwv : win.Valid)
    (hbw : win.col_off + win.width ≤ view.width)
    (hbh : win.row_off + win.height ≤ view.height)
    (xys : List (ℤ × ℤ))
    (hxys : ∀ p : ℤ × ℤ, p ∈ xys →
      (win.col_off / view.tile_width ≤ p.1 ∧
        p.1 < (win.col_off + win.width - 1) / view.tile_width + 1) ∧
      (win.row_off / view.tile_height ≤ p.2 ∧
        p.2 < (win.row_off + win.height - 1) / view.tile_height + 1)) :
    ∀ t ∈ fetchTilesOracle contents xys,
      0 ≤ t.x * view.tile_width ∧ 0 ≤ t.y * view.tile_height ∧
      0 < t.array.width ∧ 0 < t.array.height ∧
      win.intersects
        ⟨t.x * view.tile_width, t.y * view.tile_height,
         t.array.width, t.array.height⟩ = true := by
  intro t ht
  rw [fetchTilesOracle, List.mem_map] at ht
  obtain ⟨p, hp, rfl⟩ := ht
  dsimp only
  obtain ⟨⟨hx1, hx2⟩, hy1, hy2⟩ := hxys p hp
  have hgcp := hgc p.1 p.2
  have hx0 : 0 ≤ p.1 := le_trans (grid_start_nonneg hwv.1 htw) hx1
  have hy0 : 0 ≤ p.2 := le_trans (grid_start_nonneg hwv.2.1 hth) hy1
  have hovx := grid_tile_overlap hwv.1 hwv.2.2.1 hbw htw hx1 hx2 hgcp.1 hgcp.2.1
  have hovy := grid_tile_overlap hwv.2.1 hwv.2.2.2 hbh hth hy1 hy2
    hgcp.2.2.1 hgcp.2.2.2
  refine ⟨mul_nonneg hx0 (by omega), mul_nonneg hy0 (by omega),
    by omega, by omega, ?_⟩
  simp only [Window.intersects, Window.colStop, Window.rowStop,
    Bool.and_eq_true, decide_eq_true_eq]
  omega

/-- Full evaluation of `read` on an in-bounds window with well-sized
contents: the result is the canonical fold of tile writes over the x-major
cover. -/
theorem read_eval {V : Type} (view : ImageView)
    (contents : ℤ → ℤ → RasterArray V) (fill : V) (win : Window)
    (htw : 0 < view.tile_width) (hth : 0 < view.tile_height)
    (hgc : GoodContents view contents) (hwv : win.Valid)
    (hbw : win.col_off + win.width ≤ view.width)
    (hbh : win.row_off + win.height ≤ view.height) :
    read view contents fill (some win) = .ok
      { data := (fetchTilesOracle contents (coverXMajor
            (win.col_off / view.tile_width)
            ((win.col_off + win.width - 1) / view.tile_width + 1)
            (win.row_off / view.tile_height)
            ((win.row_off + win.height - 1) / view.tile_height + 1))).foldl
          (fun acc t => applyWrite t.array
            (tileWR win view.tile_width view.tile_height t) acc)
          (NDArray3.emptyBuf (contents (win.col_off / view.tile_width)
            (win.row_off / view.tile_height)).count win.height win.width fill),
        mask := (fetchTilesOracle contents (coverXMajor
            (win.col_off / view.tile_width)
            ((win.col_off + win.width - 1) / view.tile_width + 1)
            (win.row_off / view.tile_height)
            ((win.row_off + win.height - 1) / view.tile_height + 1))).foldl
          (fun acc t => applyMaskWrite t.array
            (tileWR win view.tile_width view.tile_height t) acc)
          (if view.hasMaskIfd then some (NDArray2.ones win.height win.width)
           else none),
        width := win.width, height := win.height,
        count := (contents (win.col_off / view.tile_width)
          (win.row_off / view.tile_height)).count,
        transform := view.transform.mul
          (Affine.translation (win.col_off : ℚ) (win.row_off : ℚ)),
        crs := view.crs, nodata := none } := by
  have htw' : (0 : ℤ) ≤ view.tile_width := by omega
  have hth' : (0 : ℤ) ≤ view.tile_height := by omega
  have htxe := @grid_start_lt_stop win.col_off win.width view.tile_width
    hwv.2.2.1 htw
  have htye := @grid_start_lt_stop win.row_off win.height view.tile_height
    hwv.2.2.2 hth
  obtain ⟨restc, hcov⟩ := coverXMajor_cons htxe htye
  have hstep0 := cover_tiles_good view contents win htw hth hgc hwv hbw hbh
    (coverXMajor (win.col_off / view.tile_width)
      ((win.col_off + win.width - 1) / view.tile_width + 1)
      (win.row_off / view.tile_height)
      ((win.row_off + win.height - 1) / view.tile_height + 1))
    (fun p hp => mem_coverXMajor.mp hp)
  rw [read]
  simp only [Bind.bind, Except.bind, pure, Except.pure]
  rw [if_neg (by omega)]
  simp only [Int.fdiv_eq_ediv _ htw', Int.fdiv_eq_ediv _ hth']
  rw [hcov] at hstep0 ⊢
  simp only [fetchTilesOracle, List.map_cons] at hstep0 ⊢
  rw [assemble_tiles_ok win view.tile_width view.tile_height hwv _ _ _ hstep0]

/-- Folding tile writes leaves the buffer shape alone (tile-fold form). -/
theorem foldl_tileWrite_shape {V : Type} (win : Window) (tw th : ℤ) :
    ∀ (tiles : List (Tile V)) (d : NDArray3 V),
      (tiles.foldl (fun acc t => applyWrite t.array (tileWR win tw th t) acc) d).dim0 = d.dim0 ∧
      (tiles.foldl (fun acc t => applyWrite t.array (tileWR win tw th t) acc) d).dim1 = d.dim1 ∧
      (tiles.foldl (fun acc t => applyWrite t.array (tileWR win tw th t) acc) d).dim2 = d.dim2
  | [], _ => ⟨rfl, rfl, rfl⟩
  | t :: ts, d => foldl_tileWrite_shape win tw th ts (applyWrite t.array (tileWR win tw th t) d)

/-- Claim C1: for a tiled image view and an in-bounds window (with
well-sized decoded tile contents), `read` succeeds with data of shape
`(count, window.height, window.width)`, where `count` is the band count of
the first fetched tile, and with transform
`view.transform * Translation(col_off, row_off)`. -/
theorem read_window_shape_and_transform {V : Type} (view : ImageView)
    (contents : ℤ → ℤ → RasterArray V) (fill : V) (win : Window)
    (htw : 0 < view.tile_width) (hth : 0 < view.tile_height)
    (hgc : GoodContents view contents) (hwv : win.Valid)
    (hbw : win.col_off + win.width ≤ view.width)
    (hbh : win.row_off + win.height ≤ view.height) :
    ∃ arr, read view contents fill (some win) = .ok arr
      ∧ arr.count = (contents (Int.fdiv win.col_off view.tile_width)
          (Int.fdiv win.row_off view.tile_height)).count
      ∧ arr.data.dim0 = arr.count ∧ arr.data.dim1 = win.height
      ∧ arr.data.dim2 = win.width
      ∧ arr.width = win.width ∧ arr.height = win.height
      ∧ arr.transform = view.transform.mul
          (Affine.translation (win.col_off : ℚ) (win.row_off : ℚ)) := by
  have htw' : (0 : ℤ) ≤ view.tile_width := by omega
  have hth' : (0 : ℤ) ≤ view.tile_height := by omega
  refine ⟨_, read_eval view contents fill win htw hth hgc hwv hbw hbh,
    ?_, ?_, ?_, ?_, rfl, rfl, rfl⟩
  · simp only [Int.fdiv_eq_ediv _ htw', Int.fdiv_eq_ediv _ hth']
  · exact (foldl_tileWrite_shape win view.tile_width view.tile_height _ _).1
  · exact (foldl_tileWrite_shape win view.tile_width view.tile_height _ _).2.1
  · exact (foldl_tileWrite_shape win view.tile_width view.tile_height _ _).2.2

/-- Witness for C1: a 4x4 view with 2x2 tiles, reading the centered 2x2
window (which crosses four tiles). -/
theorem read_window_shape_and_transform_witness :
    let view : ImageView := ⟨4, 4, 2, 2, ⟨1, 0, 0, 0, -1, 0⟩, 0, false⟩
    let contents : ℤ → ℤ → RasterArray ℤ := fun x y =>
      ⟨⟨1, 2, 2, fun b r c => x + 10 * y + 100 * b + 1000 * r + 10000 * c⟩,
        none, 2, 2, 1, ⟨1, 0, 0, 0, 1, 0⟩, 0, none⟩
    let win : Window := ⟨1, 1, 2, 2⟩
    ∃ arr, read view contents 0 (some win) = .ok arr
      ∧ arr.count = (contents (Int.fdiv win.col_off view.tile_width)
          (Int.fdiv win.row_off view.tile_height)).count
      ∧ arr.data.dim0 = arr.count ∧ arr.data.dim1 = win.height
      ∧ arr.data.dim2 = win.width
      ∧ arr.width = win.width ∧ arr.height = win.height
      ∧ arr.transform = view.transform.mul
          (Affine.translation (win.col_off : ℚ) (win.row_off : ℚ)) :=
  read_window_shape_and_transform _ _ 0 _ (by decide) (by decide)
    (fun x y => by dsimp only; refine ⟨?_, ?_, ?_, ?_⟩ <;> omega)
    (by decide) (by decide) (by decide)

theorem enum_map_range {β : Type} (N : ℕ) (h : ℕ → β) :
    ((List.range N).map h).enum = (List.range N).map (fun i => (i, h i)) := by
  have hz := List.zip_map' id h (List.range N)
  rw [List.map_id] at hz
  rw [List.enum_eq_zip_range, List.length_map, List.length_range, hz]
  simp [id]

/-- The enumerated stitch fold of `FetchTileMixin.read` over the y-major
cover equals the canonical fold of tile writes: the grid coordinate
recomputed from each index is the coordinate the tile was requested at. -/
theorem enum_fold_conv {V : Type} (cs ce rs re txs txe tys tye tw th : ℤ)
    (hx : txs ≤ txe) (contents : ℤ → ℤ → RasterArray V) :
    ∀ init : NDArray3 V × Option NDArray2,
      (((coverYMajor txs txe tys tye).map (fun p => contents p.1 p.2)).enum).foldl
        (fetchStitchStep cs ce rs re txs tys (txe - txs) tw th) init =
      ((coverYMajor txs txe tys tye).map (fun p =>
          (contents p.1 p.2, writeRegion cs ce rs re tw th p.1 p.2
            (contents p.1 p.2).width (contents p.1 p.2).height))).foldl
        (fun acc q => (applyWrite q.1 q.2 acc.1, applyMaskWrite q.1 q.2 acc.2))
        init := by
  intro init
  rw [coverYMajor_closed txs txe hx ((tye - tys).toNat) tys tye rfl]
  rw [List.map_map, List.map_map, enum_map_range, List.foldl_map, List.foldl_map]
  apply List.foldl_ext
  intro acc i _
  rw [fetchStitchStep_eq cs ce rs re txs tys (txe - txs) tw th
    (by omega) acc i _]
  simp only [Function.comp]

/-- Full evaluation of `FetchTileMixin.read` on an in-bounds window with
well-sized contents: the canonical fold of tile writes over the y-major
cover. -/
theorem readF_eval {V : Type} (view : ImageView)
    (contents : ℤ → ℤ → RasterArray V) (fill : V) (win : Window)
    (htw : 0 < view.tile_width) (hth : 0 < view.tile_height)
    (hwv : win.Valid)
    (hbw : win.col_off + win.width ≤ view.width)
    (hbh : win.row_off + win.height ≤ view.height) :
    readF view contents fill
      ((win.row_off, win.row_off + win.height),
       (win.col_off, win.col_off + win.width)) = .ok
      { data := ((coverYMajor (win.col_off / view.tile_width)
            ((win.col_off + win.width - 1) / view.tile_width + 1)
            (win.row_off / view.tile_height)
            ((win.row_off + win.height - 1) / view.tile_height + 1)).map
            (fun p => (contents p.1 p.2,
              writeRegion win.col_off (win.col_off + win.width)
                win.row_off (win.row_off + win.height)
                view.tile_width view.tile_height p.1 p.2
                (contents p.1 p.2).width (contents p.1 p.2).height))).foldl
          (fun acc q => applyWrite q.1 q.2 acc)
          (NDArray3.emptyBuf (contents (win.col_off / view.tile_width)
              (win.row_off / view.tile_height)).count
            (win.row_off + win.height - win.row_off)
            (win.col_off + win.width - win.col_off) fill),
        mask := ((coverYMajor (win.col_off / view.tile_width)
            ((win.col_off + win.width - 1) / view.tile_width + 1)
            (win.row_off / view.tile_height)
            ((win.row_off + win.height - 1) / view.tile_height + 1)).map
            (fun p => (contents p.1 p.2,
              writeRegion win.col_off (win.col_off + win.width)
                win.row_off (win.row_off + win.height)
                view.tile_width view.tile_height p.1 p.2
                (contents p.1 p.2).width (contents p.1 p.2).height))).foldl
          (fun acc q => applyMaskWrite q.1 q.2 acc)
          (if ((coverYMajor (win.col_off / view.tile_width)
              ((win.col_off + win.width - 1) / view.tile_width + 1)
              (win.row_off / view.tile_height)
              ((win.row_off + win.height - 1) / view.tile_height + 1)).map
              (fun p => contents p.1 p.2)).any (fun t => t.mask.isSome) then
            some (NDArray2.ones (win.row_off + win.height - win.row_off)
              (win.col_off + win.width - win.col_off))
           else none),
        width := win.col_off + win.width - win.col_off,
        height := win.row_off + win.height - win.row_off,
        count := (contents (win.col_off / view.tile_width)
          (win.row_off / view.tile_height)).count,
        transform := view.transform.mul
          (Affine.translation (win.col_off : ℚ) (win.row_off : ℚ)),
        crs := view.crs, nodata := none } := by
  have htw' : (0 : ℤ) ≤ view.tile_width := by omega
  have hth' : (0 : ℤ) ≤ view.tile_height := by omega
  have htxe := @grid_start_lt_stop win.col_off win.width view.tile_width
    hwv.2.2.1 htw
  have htye := @grid_start_lt_stop win.row_off win.height view.tile_height
    hwv.2.2.2 hth
  obtain ⟨hco, hro, hww, hhh⟩ := hwv
  obtain ⟨restc, hcovY⟩ := coverYMajor_cons htxe htye
  have hbridge := enum_fold_conv win.col_off (win.col_off + win.width)
    win.row_off (win.row_off + win.height)
    (win.col_off / view.tile_width)
    ((win.col_off + win.width - 1) / view.tile_width + 1)
    (win.row_off / view.tile_height)
    ((win.row_off + win.height - 1) / view.tile_height + 1)
    view.tile_width view.tile_height (by omega) contents
  rw [hcovY] at hbridge
  simp only [List.map_cons] at hbridge
  rw [readF]
  simp only [Bind.bind, Except.bind, pure, Except.pure]
  rw [if_neg (by omega), if_neg (by omega), if_neg (by omega)]
  simp only [Int.fdiv_eq_ediv _ htw', Int.fdiv_eq_ediv _ hth']
  rw [hcovY]
  simp only [List.map_cons]
  rw [hbridge]
  rw [foldl_write_split]

/-- Pointwise value of the canonical fold of tile writes over any cover
list holding exactly the grid range of the window: each window cell takes
its value from its own tile, at the cell's offset within that tile. -/
theorem foldl_cover_write_val {V : Type} (view : ImageView)
    (contents : ℤ → ℤ → RasterArray V) (co ro w ht : ℤ)
    (htw : 0 < view.tile_width) (hth : 0 < view.tile_height)
    (hgc : GoodContents view contents)
    (hco : 0 ≤ co) (hro : 0 ≤ ro) (hw : 0 < w) (hht : 0 < ht)
    (hbw : co + w ≤ view.width) (hbh : ro + ht ≤ view.height)
    (xys : List (ℤ × ℤ))
    (hmem : ∀ p : ℤ × ℤ, p ∈ xys ↔
      (co / view.tile_width ≤ p.1 ∧
        p.1 < (co + w - 1) / view.tile_width + 1) ∧
      (ro / view.tile_height ≤ p.2 ∧
        p.2 < (ro + ht - 1) / view.tile_height + 1))
    (d0 : NDArray3 V) (b r c : ℤ)
    (hr0 : 0 ≤ r) (hr1 : r < ht) (hc0 : 0 ≤ c) (hc1 : c < w) :
    ((xys.map (fun p => (contents p.1 p.2,
        writeRegion co (co + w) ro (ro + ht)
          view.tile_width view.tile_height p.1 p.2
          (contents p.1 p.2).width (contents p.1 p.2).height))).foldl
      (fun acc q => applyWrite q.1 q.2 acc) d0).val b r c =
    (contents ((co + c) / view.tile_width)
        ((ro + r) / view.tile_height)).data.val b
      (ro + r - (ro + r) / view.tile_height * view.tile_height)
      (co + c - (co + c) / view.tile_width * view.tile_width) := by
  rw [foldl_applyWrite_val]
  have hgc0 := hgc ((co + c) / view.tile_width) ((ro + r) / view.tile_height)
  have hcovx := grid_cell_covered hco hbw htw (by omega : co ≤ co + c)
    (by omega : co + c < co + w) hgc0.1
  have hcovy := grid_cell_covered hro hbh hth (by omega : ro ≤ ro + r)
    (by omega : ro + r < ro + ht) hgc0.2.2.1
  have hmx := @grid_cell_tile_mem co w view.tile_width (co + c) htw
    (by omega) (by omega : co + c < co + w)
  have hmy := @grid_cell_tile_mem ro ht view.tile_height (ro + r) hth
    (by omega) (by omega : ro + r < ro + ht)
  have hfind : ((xys.map (fun p => (contents p.1 p.2,
      writeRegion co (co + w) ro (ro + ht)
        view.tile_width view.tile_height p.1 p.2
        (contents p.1 p.2).width (contents p.1 p.2).height))).reverse).find?
      (fun q => decide (inWriteRegion q.2 r c)) =
      some (contents ((co + c) / view.tile_width) ((ro + r) / view.tile_height),
        writeRegion co (co + w) ro (ro + ht)
          view.tile_width view.tile_height
          ((co + c) / view.tile_width) ((ro + r) / view.tile_height)
          (contents ((co + c) / view.tile_width)
            ((ro + r) / view.tile_height)).width
          (contents ((co + c) / view.tile_width)
            ((ro + r) / view.tile_height)).height) := by
    apply find?_eq_of_unique
    · rw [List.mem_reverse, List.mem_map]
      exact ⟨((co + c) / view.tile_width, (ro + r) / view.tile_height),
        (hmem _).mpr ⟨hmx, hmy⟩, rfl⟩
    · rw [decide_eq_true_eq]
      simp only [inWriteRegion, writeRegion]
      omega
    · intro q hq hpq
      rw [List.mem_reverse, List.mem_map] at hq
      obtain ⟨p, hp, rfl⟩ := hq
      rw [decide_eq_true_eq] at hpq
      simp only [inWriteRegion, writeRegion] at hpq
      obtain ⟨⟨hx1, hx2⟩, hy1, hy2⟩ := (hmem p).mp hp
      have hgcp := hgc p.1 p.2
      have hxu : (co + c) / view.tile_width = p.1 :=
        grid_cover_unique htw hgcp.2.1 (by omega) (by omega)
      have hyu : (ro + r) / view.tile_height = p.2 :=
        grid_cover_unique hth hgcp.2.2.2 (by omega) (by omega)
      have hp1 : p = ((co + c) / view.tile_width,
          (ro + r) / view.tile_height) :=
        Prod.ext_iff.mpr ⟨hxu.symm, hyu.symm⟩
      rw [hp1]
  rw [hfind]
  simp only [writeRegion]
  exact congrArg₂ _ (by omega) (by omega)

theorem tileFold_eq_pairFold {V : Type} (win : Window) (tw th : ℤ)
    (contents : ℤ → ℤ → RasterArray V) (xys : List (ℤ × ℤ))
    (d : NDArray3 V) :
    (fetchTilesOracle contents xys).foldl
      (fun acc t => applyWrite t.array (tileWR win tw th t) acc) d =
    (xys.map (fun p => (contents p.1 p.2,
        writeRegion win.col_off (win.col_off + win.width)
          win.row_off (win.row_off + win.height) tw th p.1 p.2
          (contents p.1 p.2).width (contents p.1 p.2).height))).foldl
      (fun acc q => applyWrite q.1 q.2 acc) d := by
  rw [fetchTilesOracle, List.foldl_map, List.foldl_map]
  rfl

/-- Claim C10: on any in-bounds window (with well-sized decoded tile
contents), the `_read.py` revision (`read`/`assemble_tiles`, x-major tile
order) and the `_fetch.py` revision (`FetchTileMixin.read`, y-major tile
order with index recomputation) both succeed and agree on the data (shape
and every in-window sample), width, height, count and transform. -/
theorem read_revisions_equivalent {V : Type} (view : ImageView)
    (contents : ℤ → ℤ → RasterArray V) (fill1 fill2 : V) (win : Window)
    (htw : 0 < view.tile_width) (hth : 0 < view.tile_height)
    (hgc : GoodContents view contents) (hwv : win.Valid)
    (hbw : win.col_off + win.width ≤ view.width)
    (hbh : win.row_off + win.height ≤ view.height) :
    ∃ arr1 arr2,
      read view contents fill1 (some win) = .ok arr1 ∧
      readF view contents fill2
        ((win.row_off, win.row_off + win.height),
         (win.col_off, win.col_off + win.width)) = .ok arr2 ∧
      arr1.width = arr2.width ∧ arr1.height = arr2.height ∧
      arr1.count = arr2.count ∧ arr1.transform = arr2.transform ∧
      arr1.data.dim0 = arr2.data.dim0 ∧ arr1.data.dim1 = arr2.data.dim1 ∧
      arr1.data.dim2 = arr2.data.dim2 ∧
      ∀ b r c : ℤ, 0 ≤ r → r < win.height → 0 ≤ c → c < win.width →
        arr1.data.val b r c = arr2.data.val b r c := by
  refine ⟨_, _, read_eval view contents fill1 win htw hth hgc hwv hbw hbh,
    readF_eval view contents fill2 win htw hth hwv hbw hbh,
    ?_, ?_, rfl, rfl, ?_, ?_, ?_, ?_⟩
  · show win.width = win.col_off + win.width - win.col_off
    omega
  · show win.height = win.row_off + win.height - win.row_off
    omega
  · rw [(foldl_tileWrite_shape win view.tile_width view.tile_height _ _).1,
        (foldl_applyWrite_shape _ _).1]
    rfl
  · rw [(foldl_tileWrite_shape win view.tile_width view.tile_height _ _).2.1,
        (foldl_applyWrite_shape _ _).2.1]
    show win.height = win.row_off + win.height - win.row_off
    omega
  · rw [(foldl_tileWrite_shape win view.tile_width view.tile_height _ _).2.2,
        (foldl_applyWrite_shape _ _).2.2]
    show win.width = win.col_off + win.width - win.col_off
    omega
  · intro b r c hr0 hr1 hc0 hc1
    rw [tileFold_eq_pairFold win view.tile_width view.tile_height contents]
    rw [foldl_cover_write_val view contents win.col_off win.row_off win.width
      win.height htw hth hgc hwv.1 hwv.2.1 hwv.2.2.1 hwv.2.2.2 hbw hbh _
      (fun p => mem_coverXMajor) _ b r c hr0 hr1 hc0 hc1]
    rw [foldl_cover_write_val view contents win.col_off win.row_off win.width
      win.height htw hth hgc hwv.1 hwv.2.1 hwv.2.2.1 hwv.2.2.2 hbw hbh _
      (fun p => mem_coverYMajor) _ b r c hr0 hr1 hc0 hc1]

/-- Witness for C10: the same 4x4 view with 2x2 tiles and centered 2x2
window, with different scratch-buffer fills on the two revisions. -/
theorem read_revisions_equivalent_witness :
    let view : ImageView := ⟨4, 4, 2, 2, ⟨1, 0, 0, 0, -1, 0⟩, 0, false⟩
    let contents : ℤ → ℤ → RasterArray ℤ := fun x y =>
      ⟨⟨1, 2, 2, fun b r c => x + 10 * y + 100 * b + 1000 * r + 10000 * c⟩,
        none, 2, 2, 1, ⟨1, 0, 0, 0, 1, 0⟩, 0, none⟩
    let win : Window := ⟨1, 1, 2, 2⟩
    ∃ arr1 arr2,
      read view contents 0 (some win) = .ok arr1 ∧
      readF view contents 7
        ((win.row_off, win.row_off + win.height),
         (win.col_off, win.col_off + win.width)) = .ok arr2 ∧
      arr1.width = arr2.width ∧ arr1.height = arr2.height ∧
      arr1.count = arr2.count ∧ arr1.transform = arr2.transform ∧
      arr1.data.dim0 = arr2.data.dim0 ∧ arr1.data.dim1 = arr2.data.dim1 ∧
      arr1.data.dim2 = arr2.data.dim2 ∧
      ∀ b r c : ℤ, 0 ≤ r → r < win.height → 0 ≤ c → c < win.width →
        arr1.data.val b r c = arr2.data.val b r c :=
  read_revisions_equivalent _ _ 0 7 _ (by decide) (by decide)
    (fun x y => by dsimp only; refine ⟨?_, ?_, ?_, ?_⟩ <;> omega)
    (by decide) (by decide) (by decide)

end AsyncGeotiff
